import Mathlib

/-!
Shallow embedding of `packages/expo-cli/src/commands/eas-build/utils/expoUpdates.ts`.

Modelling conventions:
* The filesystem state relevant to the module is a `Files` record.  File contents are
  stored structurally: the pbxproj file stores the parsed `XcodeProject`, the
  `Expo.plist` stores the parsed key/value map, the Android manifest stores the parsed
  document.  Parsing and serialization are thus modelled as identities on the stored
  structured content (a faithful-serializer assumption); `build.gradle` is kept as a
  raw string because the source manipulates it textually.
* Every effectful source function becomes a Lean function taking and returning the
  state plus the list of files written (`RunResult`); thrown JS exceptions become a
  `some e` in the `error` field while keeping the partially mutated state, since real
  filesystem writes persist across a `throw`.
* Collaborator code of the repository that is not part of the given sources
  (`@expo/config`-style helpers `IOSConfig.Updates`, `AndroidConfig.Updates`, the
  `gitUtils` module) is modelled from the spec; each such definition carries a
  doc comment starting with `Modelled from the spec:`.  The update-URL derivation is
  kept fully parametric (`GetUrl`).
* JS string truthiness (`undefined`/`""` are falsy) is modelled by `truthy` on
  `Option String`.
-/

namespace ExpoUpdates

/-- Errors thrown by the module.  `dirtyGitTree` models `gitUtils.DirtyGitTreeError`,
`typeError` models the JS `TypeError` raised by the unguarded `[0]` access in
`getAndroidMetadataValue`, `abortError` the final "Aborting, run the command again"
error of the recovery wrappers. -/
inductive UpdatesError where
  | missingVersion
  | xcodeProjectNotFound
  | bundlePhaseNotFound
  | gradleNotFound
  | manifestNotFound
  | typeError
  | dirtyGitTree
  | abortError
  deriving DecidableEq, Repr

/-- Decidable equality of `Except` results, for evaluating runs on concrete states. -/
instance exceptDecEq {ε α : Type} [DecidableEq ε] [DecidableEq α] :
    DecidableEq (Except ε α) := fun x y =>
  match x, y with
  | Except.ok a, Except.ok b =>
    if h : a = b then isTrue (by rw [h]) else isFalse (by intro hc; cases hc; exact h rfl)
  | Except.error e, Except.error e' =>
    if h : e = e' then isTrue (by rw [h]) else isFalse (by intro hc; cases hc; exact h rfl)
  | Except.ok _, Except.error _ => isFalse (by intro hc; cases hc)
  | Except.error _, Except.ok _ => isFalse (by intro hc; cases hc)

/-- Identifiers of the four mutable project files the module writes. -/
inductive FileId where
  | pbxprojFile
  | expoPlistFile
  | buildGradleFile
  | manifestFile
  deriving DecidableEq, Repr

/-- The part of the declared expo configuration (`exp` from `getConfig`) the module
reads: `exp.runtimeVersion` and `exp.sdkVersion`. -/
structure ExpoConfig where
  runtimeVersion : Option String
  sdkVersion : Option String
  deriving DecidableEq, Repr

/-- JS truthiness of a possibly-absent string: `undefined` and `""` are falsy. -/
def truthy : Option String → Bool
  | none => false
  | some s => !(s == "")

/-- Line 16: `const iOSBuildScript = '...create-manifest-ios.sh'`. -/
def iOSBuildScript : String := "../node_modules/expo-updates/scripts/create-manifest-ios.sh"

/-- Lines 17-18: the double-quoted gradle `apply from:` directive. -/
def androidBuildScript : String :=
  "apply from: \"../../node_modules/expo-updates/scripts/create-manifest-android.gradle\""

/-- Char-level model of `androidBuildScript.replace(/"/g, "'")`: replace every
double-quote character by a single quote. -/
def replaceQuotes (s : List Char) : List Char :=
  s.map fun c => if c = '"' then '\'' else c

/-- Splitting a character list at newline characters, the semantics of JS
`content.split('\n')` (n separators yield n+1 pieces). -/
def splitLines : List Char → List (List Char)
  | [] => [[]]
  | c :: cs =>
    match splitLines cs with
    | [] => [[]]
    | l :: ls => if c = '\n' then [] :: l :: ls else (c :: l) :: ls

/-- Lines 403-410, `hasBuildScriptApply`: some line of the gradle file equals the
directive in double- or single-quoted form. -/
def hasBuildScriptApply (buildGradleContent : String) : Bool :=
  (splitLines buildGradleContent.data).any fun line =>
    line == androidBuildScript.data || line == replaceQuotes androidBuildScript.data

/-- Line 318: the template appended to `build.gradle` when the directive is absent:
the old content, a newline, a one-line comment, a newline, the double-quoted
directive, and a trailing newline. -/
def appendGradle (content : String) : String :=
  content ++ "\n" ++ "// Integration with Expo updates" ++ "\n" ++ androidBuildScript ++ "\n"

/-- JS `s.includes(sub)`: substring containment. -/
def jsIncludes (s sub : String) : Bool := decide (sub.data <:+: s.data)

/-- JS `s.replace(/"$/, '')`: drop one final double-quote character if present. -/
def stripTrailingQuote (s : String) : String :=
  if s.endsWith "\"" then s.dropRight 1 else s

/-- Lines 140-143: the new shell-script text for the bundle phase, appending the iOS
hook followed by the two characters `\n` and a closing double quote. -/
def appendIOSHook (script : String) : String :=
  stripTrailingQuote script ++ iOSBuildScript ++ "\\n\""

/-- One `PBXShellScriptBuildPhase` object: its `name` field (quotes of the pbxproj
syntax included, as in the source comparison) and its `shellScript` text. -/
structure ShellPhase where
  name : String
  shellScript : String
  deriving DecidableEq, Repr

/-- The parsed Xcode project, reduced to the data the module touches: the list of
shell-script build phases (`Object.values` of `PBXShellScriptBuildPhase`). -/
structure XcodeProject where
  phases : List ShellPhase
  deriving DecidableEq, Repr

/-- Line 297: the exact name the bundle phase is looked up by. -/
def bundlePhaseName : String := "\"Bundle React Native code and images\""

/-- Lines 294-305, `getBundleReactNativePhaseAsync`: first phase whose name matches,
else the `BuildPhaseNotFound` error. -/
def getBundleReactNativePhase (p : XcodeProject) : Except UpdatesError ShellPhase :=
  match p.phases.find? (fun ph => ph.name == bundlePhaseName) with
  | some ph => Except.ok ph
  | none => Except.error UpdatesError.bundlePhaseNotFound

/-- In-place mutation `bundleReactNative.shellScript = ...`: replace the shell script
of the first phase matching `bundlePhaseName`. -/
def setPhasesScript : List ShellPhase → String → List ShellPhase
  | [], _ => []
  | ph :: phs, s =>
    if ph.name == bundlePhaseName then { ph with shellScript := s } :: phs
    else ph :: setPhasesScript phs s

/-- Lift of `setPhasesScript` to the project. -/
def setBundlePhaseScript (p : XcodeProject) (s : String) : XcodeProject :=
  ⟨setPhasesScript p.phases s⟩

/-- The parsed `Expo.plist` content: an ordered key/value map. -/
abbrev Plist := List (String × String)

/-- Plist lookup, first entry with the given key. -/
def plistGet (pl : Plist) (k : String) : Option String :=
  (pl.find? (fun e => e.fst == k)).map (·.snd)

/-- Plist insert-or-replace: replace the first entry with the given key, else append. -/
def plistSet : Plist → String → String → Plist
  | [], k, v => [(k, v)]
  | e :: es, k, v => if e.fst == k then (k, v) :: es else e :: plistSet es k v

/-- Modelled from the spec: the plist key constants `IOSConfig.Updates.Config.*` of the
config collaborator (their concrete spellings are immaterial; they are distinct). -/
def IOS_RUNTIME_VERSION : String := "EXUpdatesRuntimeVersion"

/-- Modelled from the spec: plist key for the SDK version. -/
def IOS_SDK_VERSION : String := "EXUpdatesSDKVersion"

/-- Modelled from the spec: plist key for the update URL. -/
def IOS_UPDATE_URL : String := "EXUpdatesURL"

/-- One Android manifest `meta-data` child: its `android:name` and possibly absent
`android:value` attributes. -/
structure MetaItem where
  name : String
  value : Option String
  deriving DecidableEq, Repr

/-- One `application` node: its possibly absent `android:name` attribute and its
possibly absent list of `meta-data` children (`hasOwnProperty('meta-data')`). -/
structure AppNode where
  name : Option String
  metaData : Option (List MetaItem)
  deriving DecidableEq, Repr

/-- The parsed Android manifest, reduced to its list of application nodes. -/
structure AndroidManifest where
  application : List AppNode
  deriving DecidableEq, Repr

/-- The application-node predicate of lines 468-470. -/
def isMainApplication (a : AppNode) : Bool :=
  a.name == some ".MainApplication"

/-- Lines 472-478: scan the `meta-data` children of a node for a name, yielding its
possibly absent `android:value`; an absent `meta-data` property yields nothing. -/
def metaLookup (md : Option (List MetaItem)) (name : String) : Option String :=
  match md with
  | some items => (items.find? (fun e => e.name == name)).bind (·.value)
  | none => none

/-- Lines 464-479, `getAndroidMetadataValue`: filter application nodes by
`.MainApplication` and take index 0 — with zero matches the JS property access on
`undefined` throws (`typeError`); otherwise scan the `meta-data` children. -/
def getAndroidMetadataValue (m : AndroidManifest) (name : String) :
    Except UpdatesError (Option String) :=
  match m.application.filter isMainApplication with
  | [] => Except.error UpdatesError.typeError
  | app :: _ => Except.ok (metaLookup app.metaData name)

/-- Insert-or-replace in a `meta-data` list: replace the first item with the given
name, else append. -/
def setMeta : List MetaItem → String → String → List MetaItem
  | [], k, v => [⟨k, some v⟩]
  | e :: es, k, v => if e.name == k then ⟨k, some v⟩ :: es else e :: setMeta es k v

/-- Insert-or-replace a metadata entry on the first `.MainApplication` node (creating
its `meta-data` list when absent); other nodes are untouched. -/
def setAppMeta : List AppNode → String → String → List AppNode
  | [], _, _ => []
  | a :: as, k, v =>
    if isMainApplication a then
      { a with metaData := some (setMeta (a.metaData.getD []) k v) } :: as
    else a :: setAppMeta as k v

/-- Lift of `setAppMeta` to the manifest. -/
def metadataSet (m : AndroidManifest) (k v : String) : AndroidManifest :=
  ⟨setAppMeta m.application k v⟩

/-- Modelled from the spec: the manifest metadata key constants
`AndroidConfig.Updates.Config.*` (concrete spellings immaterial; distinct). -/
def ANDROID_RUNTIME_VERSION : String := "expo.modules.updates.EXPO_RUNTIME_VERSION"

/-- Modelled from the spec: manifest metadata key for the SDK version. -/
def ANDROID_SDK_VERSION : String := "expo.modules.updates.EXPO_SDK_VERSION"

/-- Modelled from the spec: manifest metadata key for the update URL. -/
def ANDROID_UPDATE_URL : String := "expo.modules.updates.EXPO_UPDATE_URL"

/-- The update-URL derivation `*.Updates.getUpdateUrl(exp, username)` of the config
collaborator, kept fully parametric: any function from the declared config and the
account name to a possibly absent URL. -/
abbrev GetUrl := ExpoConfig → Option String → Option String

/-- Modelled from the spec: `IOSConfig.Updates.setUpdatesConfig` produces an updated
plist with the update URL and the runtime-or-SDK version keys inserted or replaced
(spec 4.2/8); it returns a fresh object, never its argument. -/
def iosSetUpdatesConfig (g : GetUrl) (exp : ExpoConfig) (pl : Plist)
    (username : Option String) : Plist :=
  let pl1 := match g exp username with
    | some url => plistSet pl IOS_UPDATE_URL url
    | none => pl
  match exp.runtimeVersion with
  | some rv => plistSet pl1 IOS_RUNTIME_VERSION rv
  | none =>
    match exp.sdkVersion with
    | some sv => plistSet pl1 IOS_SDK_VERSION sv
    | none => pl1

/-- Modelled from the spec: `IOSConfig.Updates.setVersionsConfig` inserts or replaces
the version keys of the plist (spec 4.2). -/
def iosSetVersionsConfig (exp : ExpoConfig) (pl : Plist) : Plist :=
  match exp.runtimeVersion with
  | some rv => plistSet pl IOS_RUNTIME_VERSION rv
  | none =>
    match exp.sdkVersion with
    | some sv => plistSet pl IOS_SDK_VERSION sv
    | none => pl

/-- Modelled from the spec: `AndroidConfig.Updates.setUpdatesConfig` inserts or
replaces the update-URL and version metadata entries of the manifest (spec 4.3). -/
def androidSetUpdatesConfig (g : GetUrl) (exp : ExpoConfig) (m : AndroidManifest)
    (username : Option String) : AndroidManifest :=
  let m1 := match g exp username with
    | some url => metadataSet m ANDROID_UPDATE_URL url
    | none => m
  match exp.runtimeVersion with
  | some rv => metadataSet m1 ANDROID_RUNTIME_VERSION rv
  | none =>
    match exp.sdkVersion with
    | some sv => metadataSet m1 ANDROID_SDK_VERSION sv
    | none => m1

/-- Modelled from the spec: `AndroidConfig.Updates.setVersionsConfig` inserts or
replaces the version metadata entries of the manifest (spec 4.3). -/
def androidSetVersionsConfig (exp : ExpoConfig) (m : AndroidManifest) : AndroidManifest :=
  match exp.runtimeVersion with
  | some rv => metadataSet m ANDROID_RUNTIME_VERSION rv
  | none =>
    match exp.sdkVersion with
    | some sv => metadataSet m ANDROID_SDK_VERSION sv
    | none => m

/-- The mutable project files: `ios/*/project.pbxproj` (parsed), the
`Supporting/Expo.plist` (parsed, `none` when the file is absent), the
`android/app/build.gradle` text, and the Android manifest (parsed).  A `none` for
pbxproj, gradle or manifest means the file was not found. -/
structure Files where
  pbxproj : Option XcodeProject
  expoPlist : Option Plist
  buildGradle : Option String
  androidManifest : Option AndroidManifest
  deriving DecidableEq, Repr

/-- Result of one effectful operation: the files after it, the writes it performed in
order, and the error it threw, if any (mutations persist across a throw). -/
structure RunResult where
  files : Files
  writes : List FileId
  error : Option UpdatesError
  deriving DecidableEq, Repr

/-- Modelled from the spec: the VCS collaborator environment.  `treeClean` is what
`gitUtils.ensureGitStatusIsCleanAsync` observes after the mutations; `reviewOk` is
whether `gitUtils.reviewAndCommitChangesAsync` succeeds rather than throwing. -/
structure GitEnv where
  treeClean : Bool
  reviewOk : Bool
  deriving DecidableEq, Repr

/-- Lines 124-128, `isExpoUpdatesInstalled`: the dependency map exists and contains
the `expo-updates` key.  `deps = none` models an absent `dependencies` field. -/
def isExpoUpdatesInstalled (deps : Option (List String)) : Bool :=
  match deps with
  | none => false
  | some ds => ds.contains "expo-updates"

/-- Lines 108-122, `getConfigurationOptionsAsync`: fail with the missing-version
error when neither `runtimeVersion` nor `sdkVersion` is truthy. -/
def getConfigurationOptionsAsync (exp : ExpoConfig) (username : Option String) :
    Except UpdatesError (ExpoConfig × Option String) :=
  if !truthy exp.runtimeVersion && !truthy exp.sdkVersion then
    Except.error UpdatesError.missingVersion
  else Except.ok (exp, username)

/-- Result of a plist mutation callback: the value it returned and whether it returned
the very object it received (JS reference equality, line 182).  `sameRef = true`
implies the value equals the input in every callback the source passes. -/
structure PlistCbResult where
  sameRef : Bool
  value : Plist

/-- Lines 169-191, `modifyExpoPlistAsync`: locate the pbxproj (throwing when absent),
load the plist or an empty map, run the callback, and write the plist back only when
the callback returned a different object than it received. -/
def modifyExpoPlist (files : Files) (cb : Plist → PlistCbResult) : RunResult :=
  match files.pbxproj with
  | none => ⟨files, [], some UpdatesError.xcodeProjectNotFound⟩
  | some _ =>
    let expoPlist := files.expoPlist.getD []
    let r := cb expoPlist
    if r.sameRef then ⟨files, [], none⟩
    else ⟨{ files with expoPlist := some r.value }, [FileId.expoPlistFile], none⟩

/-- Lines 130-151, `configureUpdatesIOSAsync`: append the iOS hook to the bundle
phase when absent, then write the pbxproj back unconditionally (line 146), then run
the plist mutation with the `setUpdatesConfig` callback (which returns a fresh
object, hence `sameRef = false`). -/
def configureUpdatesIOSAsync (g : GetUrl) (exp : ExpoConfig) (username : Option String)
    (files : Files) : RunResult :=
  match files.pbxproj with
  | none => ⟨files, [], some UpdatesError.xcodeProjectNotFound⟩
  | some project =>
    match getBundleReactNativePhase project with
    | Except.error e => ⟨files, [], some e⟩
    | Except.ok phase =>
      let project' :=
        if jsIncludes phase.shellScript iOSBuildScript then project
        else setBundlePhaseScript project (appendIOSHook phase.shellScript)
      let files1 := { files with pbxproj := some project' }
      let r2 := modifyExpoPlist files1 fun pl => ⟨false, iosSetUpdatesConfig g exp pl username⟩
      ⟨r2.files, FileId.pbxprojFile :: r2.writes, r2.error⟩

/-- Lines 153-167, `setVersionsIOSAsync`: the callback returns its argument (same
reference) when the declared runtime or SDK version already matches the plist, else a
fresh `setVersionsConfig` result. -/
def setVersionsIOSAsync (exp : ExpoConfig) (files : Files) : RunResult :=
  modifyExpoPlist files fun expoPlist =>
    if (truthy exp.runtimeVersion && plistGet expoPlist IOS_RUNTIME_VERSION == exp.runtimeVersion)
        || (truthy exp.sdkVersion && plistGet expoPlist IOS_SDK_VERSION == exp.sdkVersion) then
      ⟨true, expoPlist⟩
    else ⟨false, iosSetVersionsConfig exp expoPlist⟩

/-- Lines 234-243, `isVersionsSetIOS`. -/
def isVersionsSetIOS (pl : Plist) : Bool :=
  truthy (plistGet pl IOS_RUNTIME_VERSION) || truthy (plistGet pl IOS_SDK_VERSION)

/-- Lines 220-232, `isMetadataSetIOS`: versions set, desired URL truthy, and the plist
URL entry equal to it. -/
def isMetadataSetIOS (g : GetUrl) (pl : Plist) (exp : ExpoConfig)
    (username : Option String) : Bool :=
  let currentUpdateUrl := g exp username
  isVersionsSetIOS pl && truthy currentUpdateUrl
    && plistGet pl IOS_UPDATE_URL == currentUpdateUrl

/-- Lines 193-218, `isUpdatesConfiguredIOSAsync`. -/
def isUpdatesConfiguredIOSAsync (g : GetUrl) (deps : Option (List String))
    (exp : ExpoConfig) (username : Option String) (files : Files) :
    Except UpdatesError Bool :=
  if !isExpoUpdatesInstalled deps then Except.ok true
  else
    match getConfigurationOptionsAsync exp username with
    | Except.error e => Except.error e
    | Except.ok _ =>
      match files.pbxproj with
      | none => Except.error UpdatesError.xcodeProjectNotFound
      | some project =>
        match getBundleReactNativePhase project with
        | Except.error e => Except.error e
        | Except.ok phase =>
          if !jsIncludes phase.shellScript iOSBuildScript then Except.ok false
          else
            match files.expoPlist with
            | none => Except.ok false
            | some pl => Except.ok (isMetadataSetIOS g pl exp username)

/-- Lines 450-462, `isVersionsSetAndroid`. -/
def isVersionsSetAndroid (m : AndroidManifest) : Except UpdatesError Bool := do
  let rv ← getAndroidMetadataValue m ANDROID_RUNTIME_VERSION
  let sv ← getAndroidMetadataValue m ANDROID_SDK_VERSION
  return truthy rv || truthy sv

/-- Lines 431-448, `isMetadataSetAndroid`: the stored URL is read first (line 438),
then the three-part conjunction is evaluated. -/
def isMetadataSetAndroid (g : GetUrl) (m : AndroidManifest) (exp : ExpoConfig)
    (username : Option String) : Except UpdatesError Bool := do
  let currentUpdateUrl := g exp username
  let setUrl ← getAndroidMetadataValue m ANDROID_UPDATE_URL
  let versionsSet ← isVersionsSetAndroid m
  return versionsSet && truthy currentUpdateUrl && setUrl == currentUpdateUrl

/-- Lines 312-320 of `configureUpdatesAndroidAsync`: locate the gradle build script
(throwing when absent, lines 393-401) and append the directive when no line carries
it yet. -/
def androidEnsureGradle (files : Files) : RunResult :=
  match files.buildGradle with
  | none => ⟨files, [], some UpdatesError.gradleNotFound⟩
  | some content =>
    if hasBuildScriptApply content then ⟨files, [], none⟩
    else ⟨{ files with buildGradle := some (appendGradle content) },
      [FileId.buildGradleFile], none⟩

/-- Lines 322-331 of `configureUpdatesAndroidAsync`: read the manifest (throwing when
absent, lines 412-429) and write the `setUpdatesConfig` result when the metadata
predicate reports divergence. -/
def androidEnsureMetadata (g : GetUrl) (exp : ExpoConfig) (username : Option String)
    (files : Files) : RunResult :=
  match files.androidManifest with
  | none => ⟨files, [], some UpdatesError.manifestNotFound⟩
  | some m =>
    match isMetadataSetAndroid g m exp username with
    | Except.error e => ⟨files, [], some e⟩
    | Except.ok true => ⟨files, [], none⟩
    | Except.ok false =>
      ⟨{ files with androidManifest := some (androidSetUpdatesConfig g exp m username) },
        [FileId.manifestFile], none⟩

/-- Lines 307-332, `configureUpdatesAndroidAsync`: the gradle block followed, when it
did not throw, by the manifest block. -/
def configureUpdatesAndroidAsync (g : GetUrl) (exp : ExpoConfig)
    (username : Option String) (files : Files) : RunResult :=
  let r1 := androidEnsureGradle files
  match r1.error with
  | some e => ⟨r1.files, r1.writes, some e⟩
  | none =>
    let r2 := androidEnsureMetadata g exp username r1.files
    ⟨r2.files, r1.writes ++ r2.writes, r2.error⟩

/-- Lines 334-362, `setVersionsAndroidAsync`: no write when the declared runtime or
SDK version already equals the stored metadata value, else write the
`setVersionsConfig` result. -/
def setVersionsAndroidAsync (exp : ExpoConfig) (files : Files) : RunResult :=
  match files.androidManifest with
  | none => ⟨files, [], some UpdatesError.manifestNotFound⟩
  | some m =>
    match getAndroidMetadataValue m ANDROID_RUNTIME_VERSION with
    | Except.error e => ⟨files, [], some e⟩
    | Except.ok setRv =>
      match getAndroidMetadataValue m ANDROID_SDK_VERSION with
      | Except.error e => ⟨files, [], some e⟩
      | Except.ok setSv =>
        if (truthy exp.runtimeVersion && exp.runtimeVersion == setRv)
            || (truthy exp.sdkVersion && exp.sdkVersion == setSv) then
          ⟨files, [], none⟩
        else
          ⟨{ files with androidManifest := some (androidSetVersionsConfig exp m) },
            [FileId.manifestFile], none⟩

/-- Lines 364-385, `isUpdatesConfiguredAndroidAsync`. -/
def isUpdatesConfiguredAndroidAsync (g : GetUrl) (deps : Option (List String))
    (exp : ExpoConfig) (username : Option String) (files : Files) :
    Except UpdatesError Bool :=
  if !isExpoUpdatesInstalled deps then Except.ok true
  else
    match getConfigurationOptionsAsync exp username with
    | Except.error e => Except.error e
    | Except.ok _ =>
      match files.buildGradle with
      | none => Except.error UpdatesError.gradleNotFound
      | some content =>
        if !hasBuildScriptApply content then Except.ok false
        else
          match files.androidManifest with
          | none => Except.error UpdatesError.manifestNotFound
          | some m =>
            match isMetadataSetAndroid g m exp username with
            | Except.error e => Except.error e
            | Except.ok b => if !b then Except.ok false else Except.ok true

/-- The `catch` block shared by both wrappers (lines 42-59 and 85-105): a
`DirtyGitTreeError` routes to the guided review-and-commit step, whose failure is
reinterpreted as the final abort error; any other error is rethrown unchanged. -/
def applyCatch (env : GitEnv) (r : RunResult) : RunResult :=
  match r.error with
  | none => r
  | some UpdatesError.dirtyGitTree =>
    if env.reviewOk then ⟨r.files, r.writes, none⟩
    else ⟨r.files, r.writes, some UpdatesError.abortError⟩
  | some e => ⟨r.files, r.writes, some e⟩

/-- The `try` block of `configureUpdatesAsync` (lines 33-41): resolve the
configuration, run the Android pass, run the iOS pass, then
`ensureGitStatusIsCleanAsync`, which throws `dirtyGitTree` when the tree is not
clean. -/
def configureUpdatesTry (g : GetUrl) (env : GitEnv) (exp : ExpoConfig)
    (username : Option String) (files : Files) : RunResult :=
  match getConfigurationOptionsAsync exp username with
  | Except.error e => ⟨files, [], some e⟩
  | Except.ok _ =>
    let r1 := configureUpdatesAndroidAsync g exp username files
    match r1.error with
    | some e => ⟨r1.files, r1.writes, some e⟩
    | none =>
      let r2 := configureUpdatesIOSAsync g exp username r1.files
      match r2.error with
      | some e => ⟨r2.files, r1.writes ++ r2.writes, some e⟩
      | none =>
        if env.treeClean then ⟨r2.files, r1.writes ++ r2.writes, none⟩
        else ⟨r2.files, r1.writes ++ r2.writes, some UpdatesError.dirtyGitTree⟩

/-- Lines 20-61, `configureUpdatesAsync`: skip when `expo-updates` is not a
dependency, else the try block wrapped in the recovery catch. -/
def configureUpdatesAsync (g : GetUrl) (env : GitEnv) (deps : Option (List String))
    (exp : ExpoConfig) (username : Option String) (files : Files) : RunResult :=
  if !isExpoUpdatesInstalled deps then ⟨files, [], none⟩
  else applyCatch env (configureUpdatesTry g env exp username files)

/-- The `try` block of `setUpdateVersionsAsync` (lines 76-84). -/
def setUpdateVersionsTry (env : GitEnv) (exp : ExpoConfig) (username : Option String)
    (files : Files) : RunResult :=
  match getConfigurationOptionsAsync exp username with
  | Except.error e => ⟨files, [], some e⟩
  | Except.ok _ =>
    let r1 := setVersionsAndroidAsync exp files
    match r1.error with
    | some e => ⟨r1.files, r1.writes, some e⟩
    | none =>
      let r2 := setVersionsIOSAsync exp r1.files
      match r2.error with
      | some e => ⟨r2.files, r1.writes ++ r2.writes, some e⟩
      | none =>
        if env.treeClean then ⟨r2.files, r1.writes ++ r2.writes, none⟩
        else ⟨r2.files, r1.writes ++ r2.writes, some UpdatesError.dirtyGitTree⟩

/-- Lines 63-106, `setUpdateVersionsAsync`: skip when `expo-updates` is not a
dependency, else the try block wrapped in the recovery catch. -/
def setUpdateVersionsAsync (env : GitEnv) (deps : Option (List String))
    (exp : ExpoConfig) (username : Option String) (files : Files) : RunResult :=
  if !isExpoUpdatesInstalled deps then ⟨files, [], none⟩
  else applyCatch env (setUpdateVersionsTry env exp username files)

/-! ### Helper lemmas: line splitting and substring containment -/

theorem splitLines_cons (c : Char) (cs : List Char) :
    splitLines (c :: cs) =
      match splitLines cs with
      | [] => [[]]
      | l :: ls => if c = '\n' then [] :: l :: ls else (c :: l) :: ls := rfl

theorem splitLines_ne_nil (l : List Char) : splitLines l ≠ [] := by
  cases l with
  | nil => simp [splitLines]
  | cons c cs =>
    rw [splitLines_cons]
    cases h : splitLines cs with
    | nil => simp
    | cons x xs => by_cases hc : c = '\n' <;> simp [hc]

theorem splitLines_append_newline (x y : List Char) :
    splitLines (x ++ '\n' :: y) = splitLines x ++ splitLines y := by
  induction x with
  | nil =>
    rw [List.nil_append, splitLines_cons]
    cases h : splitLines y with
    | nil => exact absurd h (splitLines_ne_nil y)
    | cons l ls => simp [splitLines]
  | cons c cs ih =>
    rw [List.cons_append, splitLines_cons, splitLines_cons, ih]
    cases h : splitLines cs with
    | nil => exact absurd h (splitLines_ne_nil cs)
    | cons l ls => by_cases hc : c = '\n' <;> simp [hc]

theorem hasBuildScriptApply_appendGradle (c : String) :
    hasBuildScriptApply (appendGradle c) = true := by
  have hdata : (appendGradle c).data =
      c.data ++ '\n' :: ("// Integration with Expo updates".data ++
        '\n' :: (androidBuildScript.data ++ '\n' :: [])) := by
    simp [appendGradle, String.data_append]
  rw [hasBuildScriptApply, hdata, splitLines_append_newline,
    splitLines_append_newline, splitLines_append_newline, List.any_append,
    List.any_append, List.any_append]
  have : (splitLines androidBuildScript.data).any fun line =>
      line == androidBuildScript.data || line == replaceQuotes androidBuildScript.data := by
    decide
  simp [this]

theorem jsIncludes_append (a mid b : String) :
    jsIncludes (a ++ mid ++ b) mid = true := by
  simp only [jsIncludes, decide_eq_true_eq, String.data_append]
  exact ⟨a.data, b.data, by simp⟩

theorem jsIncludes_appendIOSHook (s : String) :
    jsIncludes (appendIOSHook s) iOSBuildScript = true := by
  simp only [appendIOSHook]
  exact jsIncludes_append (stripTrailingQuote s) iOSBuildScript "\\n\""

/-! ### Helper lemmas: bundle phase mutation -/

theorem find?_setPhasesScript (phs : List ShellPhase) (ph : ShellPhase) (s : String)
    (h : phs.find? (fun p => p.name == bundlePhaseName) = some ph) :
    (setPhasesScript phs s).find? (fun p => p.name == bundlePhaseName)
      = some { ph with shellScript := s } := by
  induction phs with
  | nil => simp [List.find?] at h
  | cons hd tl ih =>
    by_cases hn : (hd.name == bundlePhaseName) = true
    · simp only [List.find?, hn] at h
      cases h
      simp [setPhasesScript, hn, List.find?]
    · rw [Bool.not_eq_true] at hn
      simp only [List.find?, hn] at h
      simp [setPhasesScript, hn, List.find?, ih h]

theorem getBundleReactNativePhase_setBundlePhaseScript (p : XcodeProject)
    (ph : ShellPhase) (s : String)
    (h : getBundleReactNativePhase p = Except.ok ph) :
    getBundleReactNativePhase (setBundlePhaseScript p s)
      = Except.ok { ph with shellScript := s } := by
  unfold getBundleReactNativePhase at h ⊢
  match hf : p.phases.find? (fun q => q.name == bundlePhaseName) with
  | none => rw [hf] at h; cases h
  | some q =>
    rw [hf] at h
    cases h
    rw [setBundlePhaseScript, show (XcodeProject.mk (setPhasesScript p.phases s)).phases
      = setPhasesScript p.phases s from rfl, find?_setPhasesScript _ _ _ hf]

/-! ### Helper lemmas: plist insert-or-replace -/

theorem plistGet_plistSet_self (pl : Plist) (k v : String) :
    plistGet (plistSet pl k v) k = some v := by
  induction pl with
  | nil => simp [plistSet, plistGet, List.find?]
  | cons e es ih =>
    by_cases hk : (e.fst == k) = true
    · simp [plistSet, hk, plistGet, List.find?]
    · rw [Bool.not_eq_true] at hk
      simp only [plistSet, hk, Bool.false_eq_true, if_false]
      simpa [plistGet, List.find?, hk] using ih

theorem plistGet_plistSet_ne (pl : Plist) (k k' v' : String) (hne : k ≠ k') :
    plistGet (plistSet pl k' v') k = plistGet pl k := by
  have hb : (k' == k) = false := by
    simp [beq_eq_false_iff_ne, Ne.symm hne]
  induction pl with
  | nil => simp [plistSet, plistGet, List.find?, hb]
  | cons e es ih =>
    by_cases hk : (e.fst == k') = true
    · have hek : (e.fst == k) = false := by rw [eq_of_beq hk]; exact hb
      simp [plistSet, hk, plistGet, List.find?, hb, hek]
    · rw [Bool.not_eq_true] at hk
      simp only [plistSet, hk, Bool.false_eq_true, if_false]
      by_cases he : (e.fst == k) = true
      · simp [plistGet, List.find?, he]
      · rw [Bool.not_eq_true] at he
        simpa [plistGet, List.find?, he] using ih

theorem plistSet_stable (pl : Plist) (k v : String)
    (h : plistGet pl k = some v) : plistSet pl k v = pl := by
  induction pl with
  | nil => simp [plistGet, List.find?] at h
  | cons e es ih =>
    by_cases hk : (e.fst == k) = true
    · have hfst : e.fst = k := eq_of_beq hk
      simp only [plistGet, List.find?, hk] at h
      simp only [plistSet, hk, if_true]
      cases e
      simp_all
    · rw [Bool.not_eq_true] at hk
      simp only [plistGet, List.find?, hk] at h
      simp [plistSet, hk, ih h]

theorem iosSetUpdatesConfig_idem (g : GetUrl) (exp : ExpoConfig) (pl : Plist)
    (u : Option String) :
    iosSetUpdatesConfig g exp (iosSetUpdatesConfig g exp pl u) u
      = iosSetUpdatesConfig g exp pl u := by
  cases hg : g exp u with
  | none =>
    cases hrv : exp.runtimeVersion with
    | some rv =>
      have e1 : ∀ q : Plist, iosSetUpdatesConfig g exp q u
          = plistSet q IOS_RUNTIME_VERSION rv := by
        intro q; simp [iosSetUpdatesConfig, hg, hrv]
      rw [e1, e1, plistSet_stable _ _ _ (plistGet_plistSet_self _ _ _)]
    | none =>
      cases hsv : exp.sdkVersion with
      | some sv =>
        have e1 : ∀ q : Plist, iosSetUpdatesConfig g exp q u
            = plistSet q IOS_SDK_VERSION sv := by
          intro q; simp [iosSetUpdatesConfig, hg, hrv, hsv]
        rw [e1, e1, plistSet_stable _ _ _ (plistGet_plistSet_self _ _ _)]
      | none =>
        have e1 : ∀ q : Plist, iosSetUpdatesConfig g exp q u = q := by
          intro q; simp [iosSetUpdatesConfig, hg, hrv, hsv]
        rw [e1, e1]
  | some url =>
    cases hrv : exp.runtimeVersion with
    | some rv =>
      have e1 : ∀ q : Plist, iosSetUpdatesConfig g exp q u
          = plistSet (plistSet q IOS_UPDATE_URL url) IOS_RUNTIME_VERSION rv := by
        intro q; simp [iosSetUpdatesConfig, hg, hrv]
      rw [e1, e1]
      have h1 : plistGet (plistSet (plistSet pl IOS_UPDATE_URL url) IOS_RUNTIME_VERSION rv)
          IOS_UPDATE_URL = some url := by
        rw [plistGet_plistSet_ne _ _ _ _ (by decide)]
        exact plistGet_plistSet_self _ _ _
      rw [plistSet_stable _ _ _ h1, plistSet_stable _ _ _ (plistGet_plistSet_self _ _ _)]
    | none =>
      cases hsv : exp.sdkVersion with
      | some sv =>
        have e1 : ∀ q : Plist, iosSetUpdatesConfig g exp q u
            = plistSet (plistSet q IOS_UPDATE_URL url) IOS_SDK_VERSION sv := by
          intro q; simp [iosSetUpdatesConfig, hg, hrv, hsv]
        rw [e1, e1]
        have h1 : plistGet (plistSet (plistSet pl IOS_UPDATE_URL url) IOS_SDK_VERSION sv)
            IOS_UPDATE_URL = some url := by
          rw [plistGet_plistSet_ne _ _ _ _ (by decide)]
          exact plistGet_plistSet_self _ _ _
        rw [plistSet_stable _ _ _ h1, plistSet_stable _ _ _ (plistGet_plistSet_self _ _ _)]
      | none =>
        have e1 : ∀ q : Plist, iosSetUpdatesConfig g exp q u
            = plistSet q IOS_UPDATE_URL url := by
          intro q; simp [iosSetUpdatesConfig, hg, hrv, hsv]
        rw [e1, e1, plistSet_stable _ _ _ (plistGet_plistSet_self _ _ _)]

/-! ### Helper lemmas: manifest metadata insert-or-replace -/

theorem metaFind_setMeta_self (items : List MetaItem) (k v : String) :
    (setMeta items k v).find? (fun e => e.name == k) = some ⟨k, some v⟩ := by
  induction items with
  | nil => simp [setMeta, List.find?]
  | cons e es ih =>
    by_cases hk : (e.name == k) = true
    · simp [setMeta, hk, List.find?]
    · rw [Bool.not_eq_true] at hk
      simp only [setMeta, hk, Bool.false_eq_true, if_false]
      simpa [List.find?, hk] using ih

theorem metaFind_setMeta_ne (items : List MetaItem) (k k' v' : String) (hne : k ≠ k') :
    (setMeta items k' v').find? (fun e => e.name == k)
      = items.find? (fun e => e.name == k) := by
  have hb : (k' == k) = false := by
    simp [beq_eq_false_iff_ne, Ne.symm hne]
  induction items with
  | nil => simp [setMeta, List.find?, hb]
  | cons e es ih =>
    by_cases hk : (e.name == k') = true
    · have hek : (e.name == k) = false := by rw [eq_of_beq hk]; exact hb
      simp [setMeta, hk, List.find?, hb, hek]
    · rw [Bool.not_eq_true] at hk
      simp only [setMeta, hk, Bool.false_eq_true, if_false]
      by_cases he : (e.name == k) = true
      · simp [List.find?, he]
      · rw [Bool.not_eq_true] at he
        simpa [List.find?, he] using ih

theorem setMeta_stable (items : List MetaItem) (k v : String)
    (h : items.find? (fun e => e.name == k) = some ⟨k, some v⟩) :
    setMeta items k v = items := by
  induction items with
  | nil => simp [List.find?] at h
  | cons e es ih =>
    by_cases hk : (e.name == k) = true
    · simp only [List.find?, hk] at h
      cases h
      simp [setMeta, hk]
    · rw [Bool.not_eq_true] at hk
      simp only [List.find?, hk] at h
      simp [setMeta, hk, ih h]

theorem filter_setAppMeta (l : List AppNode) (k v : String) :
    (setAppMeta l k v).filter isMainApplication =
      match l.filter isMainApplication with
      | [] => []
      | a :: rest =>
        { a with metaData := some (setMeta (a.metaData.getD []) k v) } :: rest := by
  induction l with
  | nil => simp [setAppMeta]
  | cons hd tl ih =>
    by_cases hm : isMainApplication hd = true
    · have hm' : isMainApplication { hd with
          metaData := some (setMeta (hd.metaData.getD []) k v) } = true := hm
      simp [setAppMeta, hm, List.filter_cons, hm']
    · rw [Bool.not_eq_true] at hm
      simp [setAppMeta, hm, List.filter_cons, ih]

theorem setAppMeta_of_filter_nil (l : List AppNode) (k v : String)
    (h : l.filter isMainApplication = []) : setAppMeta l k v = l := by
  induction l with
  | nil => simp [setAppMeta]
  | cons hd tl ih =>
    by_cases hm : isMainApplication hd = true
    · simp [List.filter_cons, hm] at h
    · rw [Bool.not_eq_true] at hm
      simp only [List.filter_cons, hm, Bool.false_eq_true, if_false] at h
      simp [setAppMeta, hm, ih h]

theorem setAppMeta_stable (l : List AppNode) (k v : String) (items : List MetaItem)
    (a : AppNode) (rest : List AppNode)
    (hf : l.filter isMainApplication = a :: rest)
    (hmd : a.metaData = some items)
    (hset : setMeta items k v = items) : setAppMeta l k v = l := by
  induction l with
  | nil => simp at hf
  | cons hd tl ih =>
    by_cases hm : isMainApplication hd = true
    · rw [List.filter_cons_of_pos hm] at hf
      cases hf
      simp only [setAppMeta, hm, if_true]
      rw [show a.metaData.getD [] = items by rw [hmd]; rfl, hset, ← hmd]
    · rw [Bool.not_eq_true] at hm
      rw [List.filter_cons_of_neg (by simp [hm])] at hf
      simp [setAppMeta, hm, ih hf]

theorem gamv_metadataSet_self (m : AndroidManifest) (k v : String)
    (h : m.application.filter isMainApplication ≠ []) :
    getAndroidMetadataValue (metadataSet m k v) k = Except.ok (some v) := by
  unfold getAndroidMetadataValue metadataSet
  rw [show (AndroidManifest.mk (setAppMeta m.application k v)).application
    = setAppMeta m.application k v from rfl, filter_setAppMeta]
  match hf : m.application.filter isMainApplication with
  | [] => exact absurd hf h
  | a :: rest => simp [metaLookup, metaFind_setMeta_self]

theorem gamv_metadataSet_ne (m : AndroidManifest) (k k' v' : String) (hne : k ≠ k') :
    getAndroidMetadataValue (metadataSet m k' v') k = getAndroidMetadataValue m k := by
  unfold getAndroidMetadataValue metadataSet
  rw [show (AndroidManifest.mk (setAppMeta m.application k' v')).application
    = setAppMeta m.application k' v' from rfl, filter_setAppMeta]
  match hf : m.application.filter isMainApplication with
  | [] => rfl
  | a :: rest =>
    simp only [metaLookup, metaFind_setMeta_ne _ _ _ _ hne]
    cases hmd : a.metaData with
    | none => simp [metaLookup, List.find?, beq_eq_false_iff_ne, Ne.symm hne, Option.getD]
    | some items => simp [metaLookup, Option.getD]

theorem metadataSet_stable (m : AndroidManifest) (k v : String)
    (h : getAndroidMetadataValue m k = Except.ok (some v)) :
    metadataSet m k v = m := by
  unfold getAndroidMetadataValue at h
  match hf : m.application.filter isMainApplication with
  | [] => rw [hf] at h; cases h
  | a :: rest =>
    rw [hf] at h
    replace h : metaLookup a.metaData k = some v := by simpa using h
    cases hmd : a.metaData with
    | none => rw [hmd] at h; simp [metaLookup] at h
    | some items =>
      rw [hmd] at h
      simp only [metaLookup] at h
      match hfind : items.find? (fun e => e.name == k) with
      | none => rw [hfind] at h; simp at h
      | some e =>
        rw [hfind] at h
        have hp := List.find?_some hfind
        have hname : e.name = k := eq_of_beq hp
        have hval : e.value = some v := by simpa using h
        have he : e = ⟨k, some v⟩ := by cases e; simp_all
        rw [he] at hfind
        unfold metadataSet
        have := setAppMeta_stable m.application k v items a rest hf hmd
          (setMeta_stable items k v hfind)
        rw [this]

theorem filter_metadataSet_ne_nil (m : AndroidManifest) (k v : String)
    (h : m.application.filter isMainApplication ≠ []) :
    (metadataSet m k v).application.filter isMainApplication ≠ [] := by
  unfold metadataSet
  rw [show (AndroidManifest.mk (setAppMeta m.application k v)).application
    = setAppMeta m.application k v from rfl, filter_setAppMeta]
  match hf : m.application.filter isMainApplication with
  | [] => exact absurd hf h
  | a :: rest => simp

theorem androidSetUpdatesConfig_idem (g : GetUrl) (exp : ExpoConfig)
    (m : AndroidManifest) (u : Option String)
    (h : m.application.filter isMainApplication ≠ []) :
    androidSetUpdatesConfig g exp (androidSetUpdatesConfig g exp m u) u
      = androidSetUpdatesConfig g exp m u := by
  cases hg : g exp u with
  | none =>
    cases hrv : exp.runtimeVersion with
    | some rv =>
      have e1 : ∀ q : AndroidManifest, androidSetUpdatesConfig g exp q u
          = metadataSet q ANDROID_RUNTIME_VERSION rv := by
        intro q; simp [androidSetUpdatesConfig, hg, hrv]
      rw [e1, e1, metadataSet_stable _ _ _ (gamv_metadataSet_self _ _ _ h)]
    | none =>
      cases hsv : exp.sdkVersion with
      | some sv =>
        have e1 : ∀ q : AndroidManifest, androidSetUpdatesConfig g exp q u
            = metadataSet q ANDROID_SDK_VERSION sv := by
          intro q; simp [androidSetUpdatesConfig, hg, hrv, hsv]
        rw [e1, e1, metadataSet_stable _ _ _ (gamv_metadataSet_self _ _ _ h)]
      | none =>
        have e1 : ∀ q : AndroidManifest, androidSetUpdatesConfig g exp q u = q := by
          intro q; simp [androidSetUpdatesConfig, hg, hrv, hsv]
        rw [e1, e1]
  | some url =>
    cases hrv : exp.runtimeVersion with
    | some rv =>
      have e1 : ∀ q : AndroidManifest, androidSetUpdatesConfig g exp q u
          = metadataSet (metadataSet q ANDROID_UPDATE_URL url) ANDROID_RUNTIME_VERSION rv := by
        intro q; simp [androidSetUpdatesConfig, hg, hrv]
      rw [e1, e1]
      have h1 : getAndroidMetadataValue
          (metadataSet (metadataSet m ANDROID_UPDATE_URL url) ANDROID_RUNTIME_VERSION rv)
          ANDROID_UPDATE_URL = Except.ok (some url) := by
        rw [gamv_metadataSet_ne _ _ _ _ (by decide)]
        exact gamv_metadataSet_self _ _ _ h
      rw [metadataSet_stable _ _ _ h1, metadataSet_stable _ _ _
        (gamv_metadataSet_self _ _ _ (filter_metadataSet_ne_nil _ _ _ h))]
    | none =>
      cases hsv : exp.sdkVersion with
      | some sv =>
        have e1 : ∀ q : AndroidManifest, androidSetUpdatesConfig g exp q u
            = metadataSet (metadataSet q ANDROID_UPDATE_URL url) ANDROID_SDK_VERSION sv := by
          intro q; simp [androidSetUpdatesConfig, hg, hrv, hsv]
        rw [e1, e1]
        have h1 : getAndroidMetadataValue
            (metadataSet (metadataSet m ANDROID_UPDATE_URL url) ANDROID_SDK_VERSION sv)
            ANDROID_UPDATE_URL = Except.ok (some url) := by
          rw [gamv_metadataSet_ne _ _ _ _ (by decide)]
          exact gamv_metadataSet_self _ _ _ h
        rw [metadataSet_stable _ _ _ h1, metadataSet_stable _ _ _
          (gamv_metadataSet_self _ _ _ (filter_metadataSet_ne_nil _ _ _ h))]
      | none =>
        have e1 : ∀ q : AndroidManifest, androidSetUpdatesConfig g exp q u
            = metadataSet q ANDROID_UPDATE_URL url := by
          intro q; simp [androidSetUpdatesConfig, hg, hrv, hsv]
        rw [e1, e1, metadataSet_stable _ _ _ (gamv_metadataSet_self _ _ _ h)]

/-! ### Helper lemmas: record eta and frame conditions -/

theorem Files_eta_pbx (f : Files) (x : Option XcodeProject) (h : f.pbxproj = x) :
    ({ f with pbxproj := x } : Files) = f := by
  rw [← h]

theorem Files_eta_plist (f : Files) (x : Option Plist) (h : f.expoPlist = x) :
    ({ f with expoPlist := x } : Files) = f := by
  rw [← h]

theorem Files_eta_gradle (f : Files) (x : Option String) (h : f.buildGradle = x) :
    ({ f with buildGradle := x } : Files) = f := by
  rw [← h]

theorem Files_eta_manifest (f : Files) (x : Option AndroidManifest)
    (h : f.androidManifest = x) : ({ f with androidManifest := x } : Files) = f := by
  rw [← h]

theorem androidEnsureGradle_frame (f : Files) :
    (androidEnsureGradle f).files.pbxproj = f.pbxproj ∧
      (androidEnsureGradle f).files.expoPlist = f.expoPlist ∧
      (androidEnsureGradle f).files.androidManifest = f.androidManifest := by
  unfold androidEnsureGradle
  split
  · exact ⟨rfl, rfl, rfl⟩
  · split <;> simp_all

theorem androidEnsureMetadata_frame (g : GetUrl) (exp : ExpoConfig)
    (u : Option String) (f : Files) :
    (androidEnsureMetadata g exp u f).files.pbxproj = f.pbxproj ∧
      (androidEnsureMetadata g exp u f).files.expoPlist = f.expoPlist ∧
      (androidEnsureMetadata g exp u f).files.buildGradle = f.buildGradle := by
  unfold androidEnsureMetadata
  split
  · exact ⟨rfl, rfl, rfl⟩
  · split <;> simp_all

theorem configureUpdatesIOSAsync_frame (g : GetUrl) (exp : ExpoConfig)
    (u : Option String) (f : Files) :
    (configureUpdatesIOSAsync g exp u f).files.buildGradle = f.buildGradle ∧
      (configureUpdatesIOSAsync g exp u f).files.androidManifest = f.androidManifest := by
  unfold configureUpdatesIOSAsync modifyExpoPlist
  split
  · exact ⟨rfl, rfl⟩
  · split
    · exact ⟨rfl, rfl⟩
    · split <;> simp_all

/-! ### Stability of the platform passes on their own output -/

theorem gamv_ok_of_filter (m : AndroidManifest) (k : String)
    (h : m.application.filter isMainApplication ≠ []) :
    ∃ v, getAndroidMetadataValue m k = Except.ok v := by
  unfold getAndroidMetadataValue
  match hf : m.application.filter isMainApplication with
  | [] => exact absurd hf h
  | a :: rest => exact ⟨_, rfl⟩

theorem isMetadataSetAndroid_ok_of_filter (g : GetUrl) (m : AndroidManifest)
    (exp : ExpoConfig) (u : Option String)
    (h : m.application.filter isMainApplication ≠ []) :
    ∃ b, isMetadataSetAndroid g m exp u = Except.ok b := by
  obtain ⟨v1, hv1⟩ := gamv_ok_of_filter m ANDROID_UPDATE_URL h
  obtain ⟨v2, hv2⟩ := gamv_ok_of_filter m ANDROID_RUNTIME_VERSION h
  obtain ⟨v3, hv3⟩ := gamv_ok_of_filter m ANDROID_SDK_VERSION h
  refine ⟨(truthy v2 || truthy v3) && truthy (g exp u) && (v1 == g exp u), ?_⟩
  simp [isMetadataSetAndroid, isVersionsSetAndroid, hv1, hv2, hv3, Bind.bind, Except.bind,
    Pure.pure, Except.pure]

theorem isMetadataSetAndroid_ok_filter (g : GetUrl) (m : AndroidManifest)
    (exp : ExpoConfig) (u : Option String) (b : Bool)
    (h : isMetadataSetAndroid g m exp u = Except.ok b) :
    m.application.filter isMainApplication ≠ [] := by
  intro hf
  simp [isMetadataSetAndroid, getAndroidMetadataValue, hf, Bind.bind, Except.bind] at h

theorem androidEnsureGradle_stable (f f' : Files)
    (hg : f'.buildGradle = (androidEnsureGradle f).files.buildGradle) :
    (androidEnsureGradle f').files = f' ∧
      (androidEnsureGradle f').error = (androidEnsureGradle f).error := by
  match hc : f.buildGradle with
  | none =>
    have hr : androidEnsureGradle f = ⟨f, [], some UpdatesError.gradleNotFound⟩ := by
      unfold androidEnsureGradle; rw [hc]
    rw [hr] at hg ⊢
    have hg' : f'.buildGradle = none := by rw [hg, hc]
    unfold androidEnsureGradle
    rw [hg']
    exact ⟨rfl, rfl⟩
  | some c =>
    by_cases hap : hasBuildScriptApply c = true
    · have hr : androidEnsureGradle f = ⟨f, [], none⟩ := by
        unfold androidEnsureGradle; rw [hc]; simp [hap]
      rw [hr] at hg ⊢
      have hg' : f'.buildGradle = some c := by rw [hg, hc]
      unfold androidEnsureGradle
      rw [hg']
      simp [hap]
    · rw [Bool.not_eq_true] at hap
      have hr : androidEnsureGradle f
          = ⟨{ f with buildGradle := some (appendGradle c) }, [FileId.buildGradleFile], none⟩ := by
        unfold androidEnsureGradle; rw [hc]; simp [hap]
      rw [hr] at hg ⊢
      have hg' : f'.buildGradle = some (appendGradle c) := hg
      unfold androidEnsureGradle
      rw [hg']
      simp [hasBuildScriptApply_appendGradle]

theorem filter_androidSetUpdatesConfig_ne_nil (g : GetUrl) (exp : ExpoConfig)
    (m : AndroidManifest) (u : Option String)
    (h : m.application.filter isMainApplication ≠ []) :
    (androidSetUpdatesConfig g exp m u).application.filter isMainApplication ≠ [] := by
  unfold androidSetUpdatesConfig
  cases hg : g exp u with
  | none =>
    cases hrv : exp.runtimeVersion with
    | some rv => exact filter_metadataSet_ne_nil _ _ _ h
    | none =>
      cases hsv : exp.sdkVersion with
      | some sv => exact filter_metadataSet_ne_nil _ _ _ h
      | none => exact h
  | some url =>
    cases hrv : exp.runtimeVersion with
    | some rv => exact filter_metadataSet_ne_nil _ _ _ (filter_metadataSet_ne_nil _ _ _ h)
    | none =>
      cases hsv : exp.sdkVersion with
      | some sv => exact filter_metadataSet_ne_nil _ _ _ (filter_metadataSet_ne_nil _ _ _ h)
      | none => exact filter_metadataSet_ne_nil _ _ _ h

theorem androidEnsureMetadata_stable (g : GetUrl) (exp : ExpoConfig) (u : Option String)
    (f f' : Files)
    (hm : f'.androidManifest = (androidEnsureMetadata g exp u f).files.androidManifest) :
    (androidEnsureMetadata g exp u f').files = f' ∧
      (androidEnsureMetadata g exp u f').error = (androidEnsureMetadata g exp u f).error := by
  match hc : f.androidManifest with
  | none =>
    have hr : androidEnsureMetadata g exp u f = ⟨f, [], some UpdatesError.manifestNotFound⟩ := by
      unfold androidEnsureMetadata; rw [hc]
    rw [hr] at hm ⊢
    have hm' : f'.androidManifest = none := by rw [hm, hc]
    unfold androidEnsureMetadata
    rw [hm']
    exact ⟨rfl, rfl⟩
  | some m =>
    match hms : isMetadataSetAndroid g m exp u with
    | Except.error e =>
      have hr : androidEnsureMetadata g exp u f = ⟨f, [], some e⟩ := by
        unfold androidEnsureMetadata; simp only [hc, hms]
      rw [hr] at hm ⊢
      have hm' : f'.androidManifest = some m := by rw [hm, hc]
      unfold androidEnsureMetadata
      simp only [hm', hms]
      exact ⟨trivial, trivial⟩
    | Except.ok true =>
      have hr : androidEnsureMetadata g exp u f = ⟨f, [], none⟩ := by
        unfold androidEnsureMetadata; simp only [hc, hms]
      rw [hr] at hm ⊢
      have hm' : f'.androidManifest = some m := by rw [hm, hc]
      unfold androidEnsureMetadata
      simp only [hm', hms]
      exact ⟨trivial, trivial⟩
    | Except.ok false =>
      have hfil : m.application.filter isMainApplication ≠ [] :=
        isMetadataSetAndroid_ok_filter g m exp u false hms
      have hr : androidEnsureMetadata g exp u f
          = ⟨{ f with androidManifest := some (androidSetUpdatesConfig g exp m u) },
              [FileId.manifestFile], none⟩ := by
        unfold androidEnsureMetadata; simp only [hc, hms]
      rw [hr] at hm ⊢
      have hm' : f'.androidManifest = some (androidSetUpdatesConfig g exp m u) := hm
      unfold androidEnsureMetadata
      obtain ⟨b, hb⟩ := isMetadataSetAndroid_ok_of_filter g
        (androidSetUpdatesConfig g exp m u) exp u
        (filter_androidSetUpdatesConfig_ne_nil g exp m u hfil)
      simp only [hm', hb]
      cases b
      · refine ⟨?_, rfl⟩
        have hgoal := androidSetUpdatesConfig_idem g exp m u hfil
        show ({ f' with androidManifest := some (androidSetUpdatesConfig g exp (androidSetUpdatesConfig g exp m u) u) } : Files) = f'
        rw [hgoal]
        exact Files_eta_manifest f' _ hm'
      · exact ⟨rfl, rfl⟩

theorem Files_eta_pbx_plist (f : Files) (x : Option XcodeProject) (y : Option Plist)
    (hx : f.pbxproj = x) (hy : f.expoPlist = y) :
    ({ f with pbxproj := x, expoPlist := y } : Files) = f := by
  rw [← hx, ← hy]

theorem configureUpdatesIOSAsync_stable (g : GetUrl) (exp : ExpoConfig) (u : Option String)
    (f f' : Files)
    (hp : f'.pbxproj = (configureUpdatesIOSAsync g exp u f).files.pbxproj)
    (hpl : f'.expoPlist = (configureUpdatesIOSAsync g exp u f).files.expoPlist) :
    (configureUpdatesIOSAsync g exp u f').files = f' ∧
      (configureUpdatesIOSAsync g exp u f').error
        = (configureUpdatesIOSAsync g exp u f).error := by
  match hpbx : f.pbxproj with
  | none =>
    have hr : configureUpdatesIOSAsync g exp u f
        = ⟨f, [], some UpdatesError.xcodeProjectNotFound⟩ := by
      unfold configureUpdatesIOSAsync; rw [hpbx]
    rw [hr] at hp hpl ⊢
    have hp' : f'.pbxproj = none := by rw [hp, hpbx]
    unfold configureUpdatesIOSAsync
    rw [hp']
    exact ⟨rfl, rfl⟩
  | some project =>
    match hph : getBundleReactNativePhase project with
    | Except.error e =>
      have hr : configureUpdatesIOSAsync g exp u f = ⟨f, [], some e⟩ := by
        unfold configureUpdatesIOSAsync; simp only [hpbx, hph]
      rw [hr] at hp hpl ⊢
      have hp' : f'.pbxproj = some project := by rw [hp, hpbx]
      unfold configureUpdatesIOSAsync
      simp only [hp', hph]
      exact ⟨trivial, trivial⟩
    | Except.ok phase =>
      by_cases hinc : jsIncludes phase.shellScript iOSBuildScript = true
      · have hr : configureUpdatesIOSAsync g exp u f
            = ⟨{ f with pbxproj := some project, expoPlist := some (iosSetUpdatesConfig g exp (f.expoPlist.getD []) u) }, [FileId.pbxprojFile, FileId.expoPlistFile], none⟩ := by
          unfold configureUpdatesIOSAsync modifyExpoPlist
          simp only [hpbx, hph, hinc, if_true, Bool.false_eq_true, if_false]
        rw [hr] at hp hpl ⊢
        have hp' : f'.pbxproj = some project := hp
        have hpl' : f'.expoPlist
            = some (iosSetUpdatesConfig g exp (f.expoPlist.getD []) u) := hpl
        unfold configureUpdatesIOSAsync modifyExpoPlist
        simp only [hp', hph, hinc, if_true, hpl', Bool.false_eq_true, if_false]
        refine ⟨?_, trivial⟩
        show ({ f' with pbxproj := some project, expoPlist := some (iosSetUpdatesConfig g exp (iosSetUpdatesConfig g exp (f.expoPlist.getD []) u) u) } : Files) = f'
        rw [iosSetUpdatesConfig_idem]
        exact Files_eta_pbx_plist f' _ _ hp' hpl'
      · rw [Bool.not_eq_true] at hinc
        have hph2 := getBundleReactNativePhase_setBundlePhaseScript project phase
          (appendIOSHook phase.shellScript) hph
        have hinc2 := jsIncludes_appendIOSHook phase.shellScript
        have hr : configureUpdatesIOSAsync g exp u f
            = ⟨{ f with pbxproj := some (setBundlePhaseScript project (appendIOSHook phase.shellScript)), expoPlist := some (iosSetUpdatesConfig g exp (f.expoPlist.getD []) u) }, [FileId.pbxprojFile, FileId.expoPlistFile], none⟩ := by
          unfold configureUpdatesIOSAsync modifyExpoPlist
          simp only [hpbx, hph, hinc, Bool.false_eq_true, if_false]
        rw [hr] at hp hpl ⊢
        have hp' : f'.pbxproj
            = some (setBundlePhaseScript project (appendIOSHook phase.shellScript)) := hp
        have hpl' : f'.expoPlist
            = some (iosSetUpdatesConfig g exp (f.expoPlist.getD []) u) := hpl
        unfold configureUpdatesIOSAsync modifyExpoPlist
        simp only [hp', hph2, hinc2, if_true, hpl', Bool.false_eq_true, if_false]
        refine ⟨?_, trivial⟩
        show ({ f' with pbxproj := some (setBundlePhaseScript project (appendIOSHook phase.shellScript)), expoPlist := some (iosSetUpdatesConfig g exp (iosSetUpdatesConfig g exp (f.expoPlist.getD []) u) u) } : Files) = f'
        rw [iosSetUpdatesConfig_idem]
        exact Files_eta_pbx_plist f' _ _ hp' hpl'

theorem configureUpdatesAndroidAsync_stable (g : GetUrl) (exp : ExpoConfig)
    (u : Option String) (f f' : Files)
    (hg : f'.buildGradle = (configureUpdatesAndroidAsync g exp u f).files.buildGradle)
    (hm : f'.androidManifest
      = (configureUpdatesAndroidAsync g exp u f).files.androidManifest) :
    (configureUpdatesAndroidAsync g exp u f').files = f' ∧
      (configureUpdatesAndroidAsync g exp u f').error
        = (configureUpdatesAndroidAsync g exp u f).error := by
  match he : (androidEnsureGradle f).error with
  | some e =>
    have h1 : configureUpdatesAndroidAsync g exp u f
        = ⟨(androidEnsureGradle f).files, (androidEnsureGradle f).writes, some e⟩ := by
      unfold configureUpdatesAndroidAsync; simp only [he]
    have hg1 : f'.buildGradle = (androidEnsureGradle f).files.buildGradle := by rw [hg, h1]
    obtain ⟨hf2, he2⟩ := androidEnsureGradle_stable f f' hg1
    have he2' : (androidEnsureGradle f').error = some e := by rw [he2, he]
    have h2 : configureUpdatesAndroidAsync g exp u f'
        = ⟨(androidEnsureGradle f').files, (androidEnsureGradle f').writes, some e⟩ := by
      unfold configureUpdatesAndroidAsync; simp only [he2']
    rw [h1, h2, hf2]
    exact ⟨rfl, rfl⟩
  | none =>
    have h1 : configureUpdatesAndroidAsync g exp u f
        = ⟨(androidEnsureMetadata g exp u (androidEnsureGradle f).files).files, (androidEnsureGradle f).writes ++ (androidEnsureMetadata g exp u (androidEnsureGradle f).files).writes, (androidEnsureMetadata g exp u (androidEnsureGradle f).files).error⟩ := by
      unfold configureUpdatesAndroidAsync; simp only [he]
    have hg1 : f'.buildGradle = (androidEnsureGradle f).files.buildGradle := by
      rw [hg, h1]
      exact (androidEnsureMetadata_frame g exp u (androidEnsureGradle f).files).2.2
    obtain ⟨hf2, he2⟩ := androidEnsureGradle_stable f f' hg1
    have he2' : (androidEnsureGradle f').error = none := by rw [he2, he]
    have hm1 : f'.androidManifest
        = (androidEnsureMetadata g exp u (androidEnsureGradle f).files).files.androidManifest := by
      rw [hm, h1]
    obtain ⟨hf3, he3⟩ :=
      androidEnsureMetadata_stable g exp u (androidEnsureGradle f).files f' hm1
    have h2 : configureUpdatesAndroidAsync g exp u f'
        = ⟨(androidEnsureMetadata g exp u (androidEnsureGradle f').files).files, (androidEnsureGradle f').writes ++ (androidEnsureMetadata g exp u (androidEnsureGradle f').files).writes, (androidEnsureMetadata g exp u (androidEnsureGradle f').files).error⟩ := by
      unfold configureUpdatesAndroidAsync; simp only [he2']
    rw [h1, h2, hf2, hf3, he3]
    exact ⟨rfl, rfl⟩

theorem applyCatch_files (env : GitEnv) (r : RunResult) :
    (applyCatch env r).files = r.files := by
  unfold applyCatch
  rcases r with ⟨rf, rw_, re⟩
  match re with
  | none => rfl
  | some UpdatesError.dirtyGitTree => by_cases h : env.reviewOk = true <;> simp [h]
  | some UpdatesError.missingVersion => rfl
  | some UpdatesError.xcodeProjectNotFound => rfl
  | some UpdatesError.bundlePhaseNotFound => rfl
  | some UpdatesError.gradleNotFound => rfl
  | some UpdatesError.manifestNotFound => rfl
  | some UpdatesError.typeError => rfl
  | some UpdatesError.abortError => rfl

theorem configureUpdatesTry_stable (g : GetUrl) (env env' : GitEnv) (exp : ExpoConfig)
    (u : Option String) (f : Files) :
    (configureUpdatesTry g env' exp u (configureUpdatesTry g env exp u f).files).files
      = (configureUpdatesTry g env exp u f).files := by
  match hco : getConfigurationOptionsAsync exp u with
  | Except.error e =>
    have h1 : configureUpdatesTry g env exp u f = ⟨f, [], some e⟩ := by
      unfold configureUpdatesTry; simp only [hco]
    rw [h1]
    unfold configureUpdatesTry
    simp only [hco]
  | Except.ok pr =>
    match ha : (configureUpdatesAndroidAsync g exp u f).error with
    | some e =>
      have h1 : configureUpdatesTry g env exp u f
          = ⟨(configureUpdatesAndroidAsync g exp u f).files, (configureUpdatesAndroidAsync g exp u f).writes, some e⟩ := by
        unfold configureUpdatesTry; simp only [hco, ha]
      obtain ⟨haf, hae⟩ := configureUpdatesAndroidAsync_stable g exp u f
        (configureUpdatesAndroidAsync g exp u f).files rfl rfl
      have hae' : (configureUpdatesAndroidAsync g exp u
          (configureUpdatesAndroidAsync g exp u f).files).error = some e := by rw [hae, ha]
      rw [h1]
      unfold configureUpdatesTry
      simp only [hco, hae']
      rw [haf]
    | none =>
      obtain ⟨haf, hae⟩ := configureUpdatesAndroidAsync_stable g exp u f
        (configureUpdatesIOSAsync g exp u (configureUpdatesAndroidAsync g exp u f).files).files
        (by exact (configureUpdatesIOSAsync_frame g exp u
          (configureUpdatesAndroidAsync g exp u f).files).1)
        (by exact (configureUpdatesIOSAsync_frame g exp u
          (configureUpdatesAndroidAsync g exp u f).files).2)
      have hae' : (configureUpdatesAndroidAsync g exp u
          (configureUpdatesIOSAsync g exp u (configureUpdatesAndroidAsync g exp u f).files).files).error
            = none := by rw [hae, ha]
      obtain ⟨hif, hie⟩ := configureUpdatesIOSAsync_stable g exp u
        (configureUpdatesAndroidAsync g exp u f).files
        (configureUpdatesIOSAsync g exp u (configureUpdatesAndroidAsync g exp u f).files).files
        rfl rfl
      match hi : (configureUpdatesIOSAsync g exp u
          (configureUpdatesAndroidAsync g exp u f).files).error with
      | some e =>
        have h1 : configureUpdatesTry g env exp u f
            = ⟨(configureUpdatesIOSAsync g exp u (configureUpdatesAndroidAsync g exp u f).files).files, (configureUpdatesAndroidAsync g exp u f).writes ++ (configureUpdatesIOSAsync g exp u (configureUpdatesAndroidAsync g exp u f).files).writes, some e⟩ := by
          unfold configureUpdatesTry; simp only [hco, ha, hi]
        have hie' : (configureUpdatesIOSAsync g exp u
            (configureUpdatesIOSAsync g exp u (configureUpdatesAndroidAsync g exp u f).files).files).error
              = some e := by
          rw [hie, hi]
        rw [h1]
        unfold configureUpdatesTry
        simp only [hco, haf, hae', hie', hif]
      | none =>
        have h1 : (configureUpdatesTry g env exp u f).files
            = (configureUpdatesIOSAsync g exp u (configureUpdatesAndroidAsync g exp u f).files).files := by
          unfold configureUpdatesTry
          simp only [hco, ha, hi]
          by_cases ht : env.treeClean = true <;> simp [ht]
        have hie' : (configureUpdatesIOSAsync g exp u
            (configureUpdatesIOSAsync g exp u (configureUpdatesAndroidAsync g exp u f).files).files).error
              = none := by
          rw [hie, hi]
        rw [h1]
        unfold configureUpdatesTry
        simp only [hco, haf, hae', hie', hif]
        by_cases ht : env'.treeClean = true <;> simp [ht, hif]

/-- C3: running the full reconciliation pass `configureUpdatesAsync` twice in
succession on the same project (same dependency list, declared configuration,
account and update-URL derivation; the VCS environment may differ between the runs)
leaves the on-disk content after the second run identical to the content after the
first run — the second run is a no-op with respect to file content.  This holds on
every state, including runs that end in an error. -/
theorem C3_reconcile_full_idempotent (g : GetUrl) (env env' : GitEnv)
    (deps : Option (List String)) (exp : ExpoConfig) (u : Option String) (f : Files) :
    (configureUpdatesAsync g env' deps exp u
        (configureUpdatesAsync g env deps exp u f).files).files
      = (configureUpdatesAsync g env deps exp u f).files := by
  unfold configureUpdatesAsync
  by_cases hi : isExpoUpdatesInstalled deps = true
  · simp only [hi, Bool.not_true, Bool.false_eq_true, if_false]
    rw [applyCatch_files, applyCatch_files]
    exact configureUpdatesTry_stable g env env' exp u f
  · rw [Bool.not_eq_true] at hi
    simp [hi]

/-! ### Concrete fixtures for witnesses and counterexamples -/

/-- A concrete update-URL derivation used in concrete runs. -/
def gFix : GetUrl := fun _ _ => some "https://u.example/@owner/slug"

/-- A concrete declared configuration with a runtime version. -/
def expFix : ExpoConfig := ⟨some "1.0.0", none⟩

/-- A concrete signed-in account name. -/
def userFix : Option String := some "owner"

/-- A dependency list containing `expo-updates`. -/
def depsFix : Option (List String) := some ["expo", "expo-updates"]

/-- A dependency list lacking `expo-updates`. -/
def depsNoUpdFix : Option (List String) := some ["expo", "react-native"]

/-- The bundle phase of a configured project: its script carries the iOS hook. -/
def phaseFix : ShellPhase := ⟨bundlePhaseName, iOSBuildScript⟩

/-- A configured Xcode project. -/
def projectFix : XcodeProject := ⟨[phaseFix]⟩

/-- A configured `Expo.plist`. -/
def plistFix : Plist :=
  [(IOS_UPDATE_URL, "https://u.example/@owner/slug"), (IOS_RUNTIME_VERSION, "1.0.0")]

/-- A configured Android manifest. -/
def manifestFix : AndroidManifest :=
  ⟨[⟨some ".MainApplication",
    some [⟨ANDROID_UPDATE_URL, some "https://u.example/@owner/slug"⟩,
      ⟨ANDROID_RUNTIME_VERSION, some "1.0.0"⟩]⟩]⟩

/-- A fully configured project state. -/
def filesFix : Files :=
  ⟨some projectFix, some plistFix, some androidBuildScript, some manifestFix⟩

/-- The single-quoted form of the gradle directive, as file content. -/
def gradleSingleFix : String :=
  "apply from: '../../node_modules/expo-updates/scripts/create-manifest-android.gradle'"

/-- A project state whose gradle file carries the directive in single-quoted form. -/
def filesSingleFix : Files :=
  ⟨some projectFix, some plistFix, some gradleSingleFix, some manifestFix⟩

/-- A fresh, unconfigured project state. -/
def filesUnconfFix : Files :=
  ⟨some ⟨[⟨bundlePhaseName, "\"bundle script\""⟩]⟩, none, some "plain gradle",
    some ⟨[⟨some ".MainApplication", none⟩]⟩⟩

/-- An Android manifest for the version-only scenario: runtime version 1.0.0 stored. -/
def m10Fix : AndroidManifest :=
  ⟨[⟨some ".MainApplication", some [⟨ANDROID_RUNTIME_VERSION, some "1.0.0"⟩]⟩]⟩

/-- The files of the version-only scenario. -/
def files4Fix : Files := ⟨none, none, none, some m10Fix⟩

/-! ### Claim theorems -/

/-- C2, counterexample to the claim as stated: on a fully configured project whose
bundle phase already contains the iOS script hook, the full iOS pass still writes
`project.pbxproj` (the write at line 146 is unconditional), so the pass does not
leave the file unwritten. -/
theorem C2_counterexample :
    getBundleReactNativePhase projectFix = Except.ok phaseFix ∧
      jsIncludes phaseFix.shellScript iOSBuildScript = true ∧
      FileId.pbxprojFile ∈ (configureUpdatesIOSAsync gFix expFix userFix filesFix).writes := by
  decide

/-- C2 (amended): during an iOS full-configuration pass on a project whose bundle
phase script already contains the iOS hook, `project.pbxproj` is nevertheless
written (serialized) — but the written content equals the parsed content, so the
file's content is unchanged by the pass. -/
theorem C2_pbxproj_unconditional_write (g : GetUrl) (exp : ExpoConfig)
    (u : Option String) (files : Files) (project : XcodeProject) (phase : ShellPhase)
    (hpbx : files.pbxproj = some project)
    (hph : getBundleReactNativePhase project = Except.ok phase)
    (hinc : jsIncludes phase.shellScript iOSBuildScript = true) :
    FileId.pbxprojFile ∈ (configureUpdatesIOSAsync g exp u files).writes ∧
      (configureUpdatesIOSAsync g exp u files).files.pbxproj = some project := by
  unfold configureUpdatesIOSAsync modifyExpoPlist
  simp only [hpbx, hph, hinc, if_true, Bool.false_eq_true, if_false]
  exact ⟨List.mem_cons_self _ _, trivial⟩

/-- C2 witness: the amended statement at the configured fixture state. -/
theorem C2_witness :
    filesFix.pbxproj = some projectFix ∧
      getBundleReactNativePhase projectFix = Except.ok phaseFix ∧
      jsIncludes phaseFix.shellScript iOSBuildScript = true ∧
      (FileId.pbxprojFile ∈ (configureUpdatesIOSAsync gFix expFix userFix filesFix).writes ∧
        (configureUpdatesIOSAsync gFix expFix userFix filesFix).files.pbxproj
          = some projectFix) :=
  ⟨by decide, by decide, by decide,
    C2_pbxproj_unconditional_write gFix expFix userFix filesFix projectFix phaseFix
      (by decide) (by decide) (by decide)⟩

/-- C4: with `runtimeVersion = "1.0.0"`, `sdkVersion = null` and a manifest storing
runtime version `"1.0.0"`, `setVersionsAndroidAsync` performs no manifest write;
with `runtimeVersion = "1.1.0"` on the same manifest it writes the manifest and the
stored runtime-version metadata afterwards equals `"1.1.0"`. -/
theorem C4_version_or_runtime_policy :
    (setVersionsAndroidAsync ⟨some "1.0.0", none⟩ files4Fix).writes = [] ∧
      (setVersionsAndroidAsync ⟨some "1.0.0", none⟩ files4Fix).files = files4Fix ∧
      (setVersionsAndroidAsync ⟨some "1.1.0", none⟩ files4Fix).writes
        = [FileId.manifestFile] ∧
      (match (setVersionsAndroidAsync ⟨some "1.1.0", none⟩ files4Fix).files.androidManifest
          with
        | some m => getAndroidMetadataValue m ANDROID_RUNTIME_VERSION
        | none => Except.error UpdatesError.manifestNotFound)
        = Except.ok (some "1.1.0") := by
  decide

/-- C5: the gradle check recognizes the apply-from directive exactly when some line
of the file equals it in double- or single-quoted form; a build script carrying the
single-quote form is not modified; when absent, the pass appends the double-quoted
directive preceded by a one-line comment and followed by a trailing newline. -/
theorem C5_build_script_containment :
    (∀ c : String, hasBuildScriptApply c = true ↔
      ∃ line ∈ splitLines c.data,
        line = androidBuildScript.data ∨ line = replaceQuotes androidBuildScript.data) ∧
    (∀ (g : GetUrl) (exp : ExpoConfig) (u : Option String) (files : Files) (c : String),
      files.buildGradle = some c → hasBuildScriptApply c = false →
      (configureUpdatesAndroidAsync g exp u files).files.buildGradle
          = some (c ++ "\n" ++ "// Integration with Expo updates" ++ "\n"
            ++ androidBuildScript ++ "\n") ∧
        FileId.buildGradleFile ∈ (configureUpdatesAndroidAsync g exp u files).writes) ∧
    (hasBuildScriptApply gradleSingleFix = true ∧
      (configureUpdatesAndroidAsync gFix expFix userFix filesSingleFix).files.buildGradle
        = some gradleSingleFix ∧
      FileId.buildGradleFile ∉
        (configureUpdatesAndroidAsync gFix expFix userFix filesSingleFix).writes) := by
  refine ⟨?_, ?_, by decide, by decide, by decide⟩
  · intro c
    simp [hasBuildScriptApply, List.any_eq_true]
  · intro g exp u files c hgr hap
    have h1 : androidEnsureGradle files
        = ⟨{ files with buildGradle := some (appendGradle c) }, [FileId.buildGradleFile],
            none⟩ := by
      unfold androidEnsureGradle
      simp only [hgr, hap, Bool.false_eq_true, if_false]
    have h2 : configureUpdatesAndroidAsync g exp u files
        = ⟨(androidEnsureMetadata g exp u { files with buildGradle := some (appendGradle c) }).files, [FileId.buildGradleFile] ++ (androidEnsureMetadata g exp u { files with buildGradle := some (appendGradle c) }).writes, (androidEnsureMetadata g exp u { files with buildGradle := some (appendGradle c) }).error⟩ := by
      unfold configureUpdatesAndroidAsync
      simp only [h1]
    rw [h2]
    constructor
    · have := (androidEnsureMetadata_frame g exp u
        { files with buildGradle := some (appendGradle c) }).2.2
      rw [this]
      rfl
    · exact List.mem_append_left _ (List.mem_cons_self _ _)

/-- C5 witness: the append branch evaluated on the fresh fixture state. -/
theorem C5_witness :
    filesUnconfFix.buildGradle = some "plain gradle" ∧
      hasBuildScriptApply "plain gradle" = false ∧
      ((configureUpdatesAndroidAsync gFix expFix userFix filesUnconfFix).files.buildGradle
          = some ("plain gradle" ++ "\n" ++ "// Integration with Expo updates" ++ "\n"
            ++ androidBuildScript ++ "\n") ∧
        FileId.buildGradleFile ∈
          (configureUpdatesAndroidAsync gFix expFix userFix filesUnconfFix).writes) :=
  ⟨by decide, by decide,
    C5_build_script_containment.2.1 gFix expFix userFix filesUnconfFix "plain gradle"
      (by decide) (by decide)⟩

/-- C6: when neither a truthy `runtimeVersion` nor a truthy `sdkVersion` is declared
and `expo-updates` is installed, both public mutating entry points fail with the
missing-version error, having written no file and leaving every file unchanged. -/
theorem C6_missing_version_aborts_untouched (g : GetUrl) (env : GitEnv)
    (deps : Option (List String)) (exp : ExpoConfig) (u : Option String) (files : Files)
    (hinst : isExpoUpdatesInstalled deps = true)
    (hrv : truthy exp.runtimeVersion = false) (hsv : truthy exp.sdkVersion = false) :
    configureUpdatesAsync g env deps exp u files
        = ⟨files, [], some UpdatesError.missingVersion⟩ ∧
      setUpdateVersionsAsync env deps exp u files
        = ⟨files, [], some UpdatesError.missingVersion⟩ := by
  have hco : getConfigurationOptionsAsync exp u
      = Except.error UpdatesError.missingVersion := by
    unfold getConfigurationOptionsAsync
    simp [hrv, hsv]
  constructor
  · unfold configureUpdatesAsync configureUpdatesTry applyCatch
    simp only [hinst, Bool.not_true, Bool.false_eq_true, if_false, hco]
  · unfold setUpdateVersionsAsync setUpdateVersionsTry applyCatch
    simp only [hinst, Bool.not_true, Bool.false_eq_true, if_false, hco]

/-- C6 witness: a configuration with no version fields on the configured fixture. -/
theorem C6_witness :
    isExpoUpdatesInstalled depsFix = true ∧
      truthy (ExpoConfig.mk none none).runtimeVersion = false ∧
      truthy (ExpoConfig.mk none none).sdkVersion = false ∧
      (configureUpdatesAsync gFix ⟨true, true⟩ depsFix ⟨none, none⟩ userFix filesFix
          = ⟨filesFix, [], some UpdatesError.missingVersion⟩ ∧
        setUpdateVersionsAsync ⟨true, true⟩ depsFix ⟨none, none⟩ userFix filesFix
          = ⟨filesFix, [], some UpdatesError.missingVersion⟩) :=
  ⟨by decide, by decide, by decide,
    C6_missing_version_aborts_untouched gFix ⟨true, true⟩ depsFix ⟨none, none⟩ userFix
      filesFix (by decide) (by decide) (by decide)⟩

/-- C7: when the dependency manifest lacks `expo-updates`, every public entry point
returns immediately as a no-op: the mutating passes return the unchanged state with
zero writes and no error, and both predicates return `true` without reading the
configuration. -/
theorem C7_skip_when_not_installed (g : GetUrl) (env : GitEnv)
    (deps : Option (List String)) (exp : ExpoConfig) (u : Option String) (files : Files)
    (h : isExpoUpdatesInstalled deps = false) :
    configureUpdatesAsync g env deps exp u files = ⟨files, [], none⟩ ∧
      setUpdateVersionsAsync env deps exp u files = ⟨files, [], none⟩ ∧
      isUpdatesConfiguredIOSAsync g deps exp u files = Except.ok true ∧
      isUpdatesConfiguredAndroidAsync g deps exp u files = Except.ok true := by
  refine ⟨?_, ?_, ?_, ?_⟩
  · unfold configureUpdatesAsync
    simp [h]
  · unfold setUpdateVersionsAsync
    simp [h]
  · unfold isUpdatesConfiguredIOSAsync
    simp [h]
  · unfold isUpdatesConfiguredAndroidAsync
    simp [h]

/-- C7 witness: the skip behavior on a concrete project without `expo-updates`. -/
theorem C7_witness :
    isExpoUpdatesInstalled depsNoUpdFix = false ∧
      (configureUpdatesAsync gFix ⟨true, true⟩ depsNoUpdFix expFix userFix filesUnconfFix
          = ⟨filesUnconfFix, [], none⟩ ∧
        setUpdateVersionsAsync ⟨true, true⟩ depsNoUpdFix expFix userFix filesUnconfFix
          = ⟨filesUnconfFix, [], none⟩ ∧
        isUpdatesConfiguredIOSAsync gFix depsNoUpdFix expFix userFix filesUnconfFix
          = Except.ok true ∧
        isUpdatesConfiguredAndroidAsync gFix depsNoUpdFix expFix userFix filesUnconfFix
          = Except.ok true) :=
  ⟨by decide,
    C7_skip_when_not_installed gFix ⟨true, true⟩ depsNoUpdFix expFix userFix
      filesUnconfFix (by decide)⟩

/-- C8: on a manifest whose application list filters to exactly one
`.MainApplication` node carrying no `meta-data` children, `getAndroidMetadataValue`
returns no value for every queried key without throwing; with zero matching nodes
the unguarded index-0 access throws. -/
theorem C8_metadata_lookup_safety :
    (∀ (m : AndroidManifest) (a : AppNode),
      m.application.filter isMainApplication = [a] → a.metaData = none →
      ∀ key, getAndroidMetadataValue m key = Except.ok none) ∧
    (∀ (m : AndroidManifest), m.application.filter isMainApplication = [] →
      ∀ key, getAndroidMetadataValue m key = Except.error UpdatesError.typeError) := by
  constructor
  · intro m a hf hmd key
    unfold getAndroidMetadataValue
    simp only [hf, hmd, metaLookup]
  · intro m hf key
    unfold getAndroidMetadataValue
    simp only [hf]

/-- C8 witness: both lookup behaviors on concrete manifests. -/
theorem C8_witness :
    ((AndroidManifest.mk [⟨some ".MainApplication", none⟩]).application.filter
        isMainApplication = [⟨some ".MainApplication", none⟩] ∧
      (AppNode.mk (some ".MainApplication") none).metaData = none ∧
      getAndroidMetadataValue ⟨[⟨some ".MainApplication", none⟩]⟩ ANDROID_UPDATE_URL
        = Except.ok none) ∧
    ((AndroidManifest.mk [⟨some ".OtherApp", none⟩]).application.filter
        isMainApplication = [] ∧
      getAndroidMetadataValue ⟨[⟨some ".OtherApp", none⟩]⟩ ANDROID_UPDATE_URL
        = Except.error UpdatesError.typeError) :=
  ⟨⟨by decide, by decide,
      C8_metadata_lookup_safety.1 ⟨[⟨some ".MainApplication", none⟩]⟩
        ⟨some ".MainApplication", none⟩ (by decide) (by decide) ANDROID_UPDATE_URL⟩,
    ⟨by decide,
      C8_metadata_lookup_safety.2 ⟨[⟨some ".OtherApp", none⟩]⟩ (by decide)
        ANDROID_UPDATE_URL⟩⟩

/-- C10: when the `expo-updates` dependency is absent, both configured-state
predicates report the project as configured, returning `true` rather than `false`
or an error. -/
theorem C10_predicates_true_when_not_installed (g : GetUrl)
    (deps : Option (List String)) (exp : ExpoConfig) (u : Option String) (files : Files)
    (h : isExpoUpdatesInstalled deps = false) :
    isUpdatesConfiguredIOSAsync g deps exp u files = Except.ok true ∧
      isUpdatesConfiguredAndroidAsync g deps exp u files = Except.ok true := by
  constructor
  · unfold isUpdatesConfiguredIOSAsync
    simp [h]
  · unfold isUpdatesConfiguredAndroidAsync
    simp [h]

/-- C10 witness: the two predicates on a concrete project lacking the dependency,
with files that are nowhere near configured. -/
theorem C10_witness :
    isExpoUpdatesInstalled depsNoUpdFix = false ∧
      (isUpdatesConfiguredIOSAsync gFix depsNoUpdFix expFix userFix filesUnconfFix
          = Except.ok true ∧
        isUpdatesConfiguredAndroidAsync gFix depsNoUpdFix expFix userFix filesUnconfFix
          = Except.ok true) :=
  ⟨by decide,
    C10_predicates_true_when_not_installed gFix depsNoUpdFix expFix userFix
      filesUnconfFix (by decide)⟩

/-- C1, counterexample to the claim as stated: on a fully configured project the iOS
configured-state predicate returns `true`, yet a subsequent run of
`configureUpdatesIOSAsync` performs writes (the unconditional `project.pbxproj`
serialization of line 146), so "predicate true iff zero writes" fails for iOS. -/
theorem C1_counterexample :
    isUpdatesConfiguredIOSAsync gFix depsFix expFix userFix filesFix = Except.ok true ∧
      (configureUpdatesIOSAsync gFix expFix userFix filesFix).writes ≠ [] := by
  decide

/-- C1 (amended): the predicate/mutation agreement holds for Android — with
`expo-updates` installed, whenever the Android predicate returns a boolean and the
Android pass completes without throwing, the predicate is `true` exactly when the
pass performs zero writes.  For iOS the equivalence fails: every non-throwing run of
`configureUpdatesIOSAsync` performs at least one write, because `project.pbxproj` is
serialized unconditionally. -/
theorem C1_predicate_mutation_agreement :
    (∀ (g : GetUrl) (deps : Option (List String)) (exp : ExpoConfig) (u : Option String)
        (files : Files) (b : Bool),
      isExpoUpdatesInstalled deps = true →
      isUpdatesConfiguredAndroidAsync g deps exp u files = Except.ok b →
      (configureUpdatesAndroidAsync g exp u files).error = none →
      (b = true ↔ (configureUpdatesAndroidAsync g exp u files).writes = [])) ∧
    (∀ (g : GetUrl) (exp : ExpoConfig) (u : Option String) (files : Files),
      (configureUpdatesIOSAsync g exp u files).error = none →
      (configureUpdatesIOSAsync g exp u files).writes ≠ []) := by
  constructor
  · intro g deps exp u files b hinst hpred herr
    unfold isUpdatesConfiguredAndroidAsync at hpred
    simp only [hinst, Bool.not_true, Bool.false_eq_true, if_false] at hpred
    match hco : getConfigurationOptionsAsync exp u with
    | Except.error e => rw [hco] at hpred; exact Except.noConfusion hpred
    | Except.ok pr =>
      rw [hco] at hpred
      match hgr : files.buildGradle with
      | none => rw [hgr] at hpred; exact Except.noConfusion hpred
      | some c =>
        rw [hgr] at hpred
        by_cases hap : hasBuildScriptApply c = true
        · simp only [hap, Bool.not_true, Bool.false_eq_true, if_false] at hpred
          match hman : files.androidManifest with
          | none => rw [hman] at hpred; exact Except.noConfusion hpred
          | some m =>
            rw [hman] at hpred
            match hms : isMetadataSetAndroid g m exp u with
            | Except.error e => simp only [hms] at hpred; exact Except.noConfusion hpred
            | Except.ok mb =>
              simp only [hms] at hpred
              have hgrad : androidEnsureGradle files = ⟨files, [], none⟩ := by
                unfold androidEnsureGradle
                simp only [hgr, hap, if_true]
              cases mb
              · simp only [Bool.not_false, if_true, Except.ok.injEq] at hpred
                have hpass : configureUpdatesAndroidAsync g exp u files
                    = ⟨{ files with androidManifest := some (androidSetUpdatesConfig g exp m u) }, [] ++ [FileId.manifestFile], none⟩ := by
                  unfold configureUpdatesAndroidAsync androidEnsureMetadata
                  simp only [hgrad, hman, hms]
                rw [hpass, ← hpred]
                simp
              · simp only [Bool.not_true, Bool.false_eq_true, if_false,
                  Except.ok.injEq] at hpred
                have hpass : configureUpdatesAndroidAsync g exp u files
                    = ⟨files, [] ++ [], none⟩ := by
                  unfold configureUpdatesAndroidAsync androidEnsureMetadata
                  simp only [hgrad, hman, hms]
                rw [hpass, ← hpred]
                simp
        · rw [Bool.not_eq_true] at hap
          simp only [hap, Bool.not_false, if_true, Except.ok.injEq] at hpred
          have hgrad : androidEnsureGradle files
              = ⟨{ files with buildGradle := some (appendGradle c) },
                  [FileId.buildGradleFile], none⟩ := by
            unfold androidEnsureGradle
            simp only [hgr, hap, Bool.false_eq_true, if_false]
          have hpass : configureUpdatesAndroidAsync g exp u files
              = ⟨(androidEnsureMetadata g exp u { files with buildGradle := some (appendGradle c) }).files, [FileId.buildGradleFile] ++ (androidEnsureMetadata g exp u { files with buildGradle := some (appendGradle c) }).writes, (androidEnsureMetadata g exp u { files with buildGradle := some (appendGradle c) }).error⟩ := by
            unfold configureUpdatesAndroidAsync
            simp only [hgrad]
          rw [hpass, ← hpred]
          simp
  · intro g exp u files herr
    unfold configureUpdatesIOSAsync at herr ⊢
    match hpbx : files.pbxproj with
    | none => rw [hpbx] at herr; simp at herr
    | some project =>
      rw [hpbx] at herr
      match hph : getBundleReactNativePhase project with
      | Except.error e => simp only [hph] at herr; simp at herr
      | Except.ok phase =>
        simp only [hph]
        simp

/-- C1 witness: the Android equivalence evaluated on the fully configured fixture,
where the predicate returns `true` and the pass writes nothing. -/
theorem C1_witness :
    isExpoUpdatesInstalled depsFix = true ∧
      isUpdatesConfiguredAndroidAsync gFix depsFix expFix userFix filesFix
        = Except.ok true ∧
      (configureUpdatesAndroidAsync gFix expFix userFix filesFix).error = none ∧
      (true = true ↔ (configureUpdatesAndroidAsync gFix expFix userFix filesFix).writes
        = []) :=
  ⟨by decide, by decide, by decide,
    C1_predicate_mutation_agreement.1 gFix depsFix expFix userFix filesFix true
      (by decide) (by decide) (by decide)⟩

/-! ### Errors the platform passes can throw (none of them is the dirty-tree error) -/

theorem gamv_error_eq (m : AndroidManifest) (k : String) (e : UpdatesError)
    (h : getAndroidMetadataValue m k = Except.error e) : e = UpdatesError.typeError := by
  unfold getAndroidMetadataValue at h
  match hf : m.application.filter isMainApplication with
  | [] =>
    rw [hf] at h
    cases h
    rfl
  | a :: rest =>
    rw [hf] at h
    exact Except.noConfusion h

theorem isMetadataSetAndroid_error_eq (g : GetUrl) (m : AndroidManifest)
    (exp : ExpoConfig) (u : Option String) (e : UpdatesError)
    (h : isMetadataSetAndroid g m exp u = Except.error e) : e = UpdatesError.typeError := by
  by_cases hf : m.application.filter isMainApplication = []
  · have h1 : getAndroidMetadataValue m ANDROID_UPDATE_URL
        = Except.error UpdatesError.typeError := by
      unfold getAndroidMetadataValue; rw [hf]
    unfold isMetadataSetAndroid at h
    simp only [h1, Bind.bind, Except.bind] at h
    cases h
    rfl
  · obtain ⟨b, hb⟩ := isMetadataSetAndroid_ok_of_filter g m exp u hf
    rw [hb] at h
    exact Except.noConfusion h

theorem configureUpdatesAndroidAsync_error_ne_dirty (g : GetUrl) (exp : ExpoConfig)
    (u : Option String) (f : Files) (e : UpdatesError)
    (h : (configureUpdatesAndroidAsync g exp u f).error = some e) :
    e ≠ UpdatesError.dirtyGitTree ∧ e ≠ UpdatesError.abortError := by
  unfold configureUpdatesAndroidAsync androidEnsureGradle androidEnsureMetadata at h
  match hgr : f.buildGradle with
  | none =>
    rw [hgr] at h
    simp at h
    simp [← h]
  | some c =>
    rw [hgr] at h
    by_cases hap : hasBuildScriptApply c = true
    · simp only [hap, if_true] at h
      match hman : f.androidManifest with
      | none =>
        rw [hman] at h
        simp at h
        simp [← h]
      | some m =>
        rw [hman] at h
        match hms : isMetadataSetAndroid g m exp u with
        | Except.error e' =>
          simp only [hms] at h
          simp at h
          rw [← h, isMetadataSetAndroid_error_eq g m exp u e' hms]
          simp
        | Except.ok true => simp only [hms] at h; simp at h
        | Except.ok false => simp only [hms] at h; simp at h
    · rw [Bool.not_eq_true] at hap
      simp only [hap, Bool.false_eq_true, if_false] at h
      match hman : f.androidManifest with
      | none =>
        rw [hman] at h
        simp at h
        simp [← h]
      | some m =>
        rw [hman] at h
        match hms : isMetadataSetAndroid g m exp u with
        | Except.error e' =>
          simp only [hms] at h
          simp at h
          rw [← h, isMetadataSetAndroid_error_eq g m exp u e' hms]
          simp
        | Except.ok true => simp only [hms] at h; simp at h
        | Except.ok false => simp only [hms] at h; simp at h

theorem configureUpdatesIOSAsync_error_ne_dirty (g : GetUrl) (exp : ExpoConfig)
    (u : Option String) (f : Files) (e : UpdatesError)
    (h : (configureUpdatesIOSAsync g exp u f).error = some e) :
    e ≠ UpdatesError.dirtyGitTree ∧ e ≠ UpdatesError.abortError := by
  unfold configureUpdatesIOSAsync modifyExpoPlist at h
  match hpbx : f.pbxproj with
  | none =>
    rw [hpbx] at h
    simp at h
    simp [← h]
  | some project =>
    rw [hpbx] at h
    match hph : getBundleReactNativePhase project with
    | Except.error e' =>
      have he' : e' = UpdatesError.bundlePhaseNotFound := by
        unfold getBundleReactNativePhase at hph
        match hfind : project.phases.find? (fun ph => ph.name == bundlePhaseName) with
        | some q => rw [hfind] at hph; exact Except.noConfusion hph
        | none =>
          rw [hfind] at hph
          cases hph
          rfl
      simp only [hph] at h
      simp at h
      rw [← h, he']
      simp
    | Except.ok phase =>
      simp only [hph] at h
      simp at h

theorem setVersionsAndroidAsync_error_ne_dirty (exp : ExpoConfig) (f : Files)
    (e : UpdatesError) (h : (setVersionsAndroidAsync exp f).error = some e) :
    e ≠ UpdatesError.dirtyGitTree ∧ e ≠ UpdatesError.abortError := by
  unfold setVersionsAndroidAsync at h
  match hman : f.androidManifest with
  | none =>
    rw [hman] at h
    simp at h
    simp [← h]
  | some m =>
    rw [hman] at h
    match h1 : getAndroidMetadataValue m ANDROID_RUNTIME_VERSION with
    | Except.error e1 =>
      simp only [h1] at h
      simp at h
      rw [← h, gamv_error_eq m ANDROID_RUNTIME_VERSION e1 h1]
      simp
    | Except.ok v1 =>
      simp only [h1] at h
      match h2 : getAndroidMetadataValue m ANDROID_SDK_VERSION with
      | Except.error e2 =>
        simp only [h2] at h
        simp at h
        rw [← h, gamv_error_eq m ANDROID_SDK_VERSION e2 h2]
        simp
      | Except.ok v2 =>
        simp only [h2] at h
        split at h <;> simp at h

theorem setVersionsIOSAsync_error_ne_dirty (exp : ExpoConfig) (f : Files)
    (e : UpdatesError) (h : (setVersionsIOSAsync exp f).error = some e) :
    e ≠ UpdatesError.dirtyGitTree ∧ e ≠ UpdatesError.abortError := by
  unfold setVersionsIOSAsync modifyExpoPlist at h
  match hpbx : f.pbxproj with
  | none =>
    rw [hpbx] at h
    simp at h
    simp [← h]
  | some project =>
    rw [hpbx] at h
    split at h
    · contradiction
    · simp only [] at h
      split at h <;> simp at h

theorem getConfigurationOptionsAsync_error_eq (exp : ExpoConfig) (u : Option String)
    (e : UpdatesError) (h : getConfigurationOptionsAsync exp u = Except.error e) :
    e = UpdatesError.missingVersion := by
  unfold getConfigurationOptionsAsync at h
  split at h
  · cases h; rfl
  · exact Except.noConfusion h

theorem configureUpdatesTry_dirty_iff (g : GetUrl) (env : GitEnv) (exp : ExpoConfig)
    (u : Option String) (files : Files) :
    ((configureUpdatesTry g env exp u files).error = some UpdatesError.dirtyGitTree ↔
      ((configureUpdatesTry g ⟨true, env.reviewOk⟩ exp u files).error = none ∧
        env.treeClean = false)) := by
  unfold configureUpdatesTry
  match hco : getConfigurationOptionsAsync exp u with
  | Except.error e =>
    have he := getConfigurationOptionsAsync_error_eq exp u e hco
    simp [he]
  | Except.ok pr =>
    match ha : (configureUpdatesAndroidAsync g exp u files).error with
    | some e =>
      have hne := (configureUpdatesAndroidAsync_error_ne_dirty g exp u files e ha).1
      simp [ha, hne]
    | none =>
      match hi : (configureUpdatesIOSAsync g exp u
          (configureUpdatesAndroidAsync g exp u files).files).error with
      | some e =>
        have hne := (configureUpdatesIOSAsync_error_ne_dirty g exp u
          (configureUpdatesAndroidAsync g exp u files).files e hi).1
        simp [ha, hi, hne]
      | none =>
        by_cases ht : env.treeClean = true
        · simp [ha, hi, ht]
        · rw [Bool.not_eq_true] at ht
          simp [ha, hi, ht]

theorem setUpdateVersionsTry_dirty_iff (env : GitEnv) (exp : ExpoConfig)
    (u : Option String) (files : Files) :
    ((setUpdateVersionsTry env exp u files).error = some UpdatesError.dirtyGitTree ↔
      ((setUpdateVersionsTry ⟨true, env.reviewOk⟩ exp u files).error = none ∧
        env.treeClean = false)) := by
  unfold setUpdateVersionsTry
  match hco : getConfigurationOptionsAsync exp u with
  | Except.error e =>
    have he := getConfigurationOptionsAsync_error_eq exp u e hco
    simp [he]
  | Except.ok pr =>
    match ha : (setVersionsAndroidAsync exp files).error with
    | some e =>
      have hne := (setVersionsAndroidAsync_error_ne_dirty exp files e ha).1
      simp [ha, hne]
    | none =>
      match hi : (setVersionsIOSAsync exp (setVersionsAndroidAsync exp files).files).error
          with
      | some e =>
        have hne := (setVersionsIOSAsync_error_ne_dirty exp
          (setVersionsAndroidAsync exp files).files e hi).1
        simp [ha, hi, hne]
      | none =>
        by_cases ht : env.treeClean = true
        · simp [ha, hi, ht]
        · rw [Bool.not_eq_true] at ht
          simp [ha, hi, ht]

theorem applyCatch_dirty (env : GitEnv) (r : RunResult)
    (h : r.error = some UpdatesError.dirtyGitTree) :
    applyCatch env r
      = ⟨r.files, r.writes, if env.reviewOk then none else some UpdatesError.abortError⟩ := by
  unfold applyCatch
  rw [h]
  by_cases hrev : env.reviewOk = true
  · simp [hrev]
  · rw [Bool.not_eq_true] at hrev
    simp [hrev]

theorem applyCatch_other (env : GitEnv) (r : RunResult) (e : UpdatesError)
    (h : r.error = some e) (hne : e ≠ UpdatesError.dirtyGitTree) :
    applyCatch env r = ⟨r.files, r.writes, some e⟩ := by
  unfold applyCatch
  rw [h]
  cases e
  case dirtyGitTree => exact absurd rfl hne
  all_goals rfl

/-- C9: for both wrappers, the dirty-tree error arises exactly when the underlying
pass completes its mutations and the VCS collaborator reports the workspace is not
clean; in that case the wrapper runs the guided review-and-commit step, succeeding
when the step succeeds and raising the final retry abort error when the step throws;
any other error propagates out of the wrapper unchanged, with the partially mutated
state preserved. -/
theorem C9_recovery_orchestration :
    (∀ (g : GetUrl) (env : GitEnv) (exp : ExpoConfig) (u : Option String) (files : Files),
      ((configureUpdatesTry g env exp u files).error = some UpdatesError.dirtyGitTree ↔
        ((configureUpdatesTry g ⟨true, env.reviewOk⟩ exp u files).error = none ∧
          env.treeClean = false))) ∧
    (∀ (g : GetUrl) (env : GitEnv) (deps : Option (List String)) (exp : ExpoConfig)
        (u : Option String) (files : Files),
      isExpoUpdatesInstalled deps = true →
      (configureUpdatesTry g env exp u files).error = some UpdatesError.dirtyGitTree →
      configureUpdatesAsync g env deps exp u files
        = ⟨(configureUpdatesTry g env exp u files).files,
            (configureUpdatesTry g env exp u files).writes,
            if env.reviewOk then none else some UpdatesError.abortError⟩) ∧
    (∀ (g : GetUrl) (env : GitEnv) (deps : Option (List String)) (exp : ExpoConfig)
        (u : Option String) (files : Files) (e : UpdatesError),
      isExpoUpdatesInstalled deps = true →
      (configureUpdatesTry g env exp u files).error = some e →
      e ≠ UpdatesError.dirtyGitTree →
      configureUpdatesAsync g env deps exp u files
        = ⟨(configureUpdatesTry g env exp u files).files,
            (configureUpdatesTry g env exp u files).writes, some e⟩) ∧
    (∀ (env : GitEnv) (exp : ExpoConfig) (u : Option String) (files : Files),
      ((setUpdateVersionsTry env exp u files).error = some UpdatesError.dirtyGitTree ↔
        ((setUpdateVersionsTry ⟨true, env.reviewOk⟩ exp u files).error = none ∧
          env.treeClean = false))) ∧
    (∀ (env : GitEnv) (deps : Option (List String)) (exp : ExpoConfig)
        (u : Option String) (files : Files),
      isExpoUpdatesInstalled deps = true →
      (setUpdateVersionsTry env exp u files).error = some UpdatesError.dirtyGitTree →
      setUpdateVersionsAsync env deps exp u files
        = ⟨(setUpdateVersionsTry env exp u files).files,
            (setUpdateVersionsTry env exp u files).writes,
            if env.reviewOk then none else some UpdatesError.abortError⟩) ∧
    (∀ (env : GitEnv) (deps : Option (List String)) (exp : ExpoConfig)
        (u : Option String) (files : Files) (e : UpdatesError),
      isExpoUpdatesInstalled deps = true →
      (setUpdateVersionsTry env exp u files).error = some e →
      e ≠ UpdatesError.dirtyGitTree →
      setUpdateVersionsAsync env deps exp u files
        = ⟨(setUpdateVersionsTry env exp u files).files,
            (setUpdateVersionsTry env exp u files).writes, some e⟩) := by
  refine ⟨configureUpdatesTry_dirty_iff, ?_, ?_, setUpdateVersionsTry_dirty_iff, ?_, ?_⟩
  · intro g env deps exp u files hinst htry
    unfold configureUpdatesAsync
    simp only [hinst, Bool.not_true, Bool.false_eq_true, if_false]
    exact applyCatch_dirty env _ htry
  · intro g env deps exp u files e hinst htry hne
    unfold configureUpdatesAsync
    simp only [hinst, Bool.not_true, Bool.false_eq_true, if_false]
    exact applyCatch_other env _ e htry hne
  · intro env deps exp u files hinst htry
    unfold setUpdateVersionsAsync
    simp only [hinst, Bool.not_true, Bool.false_eq_true, if_false]
    exact applyCatch_dirty env _ htry
  · intro env deps exp u files e hinst htry hne
    unfold setUpdateVersionsAsync
    simp only [hinst, Bool.not_true, Bool.false_eq_true, if_false]
    exact applyCatch_other env _ e htry hne

/-- C9 witness: on a fresh project with a dirty tree and a failing review step, the
configure wrapper ends in the final abort error, keeping the mutated files. -/
theorem C9_witness :
    isExpoUpdatesInstalled depsFix = true ∧
      (configureUpdatesTry gFix ⟨false, false⟩ expFix userFix filesUnconfFix).error
        = some UpdatesError.dirtyGitTree ∧
      configureUpdatesAsync gFix ⟨false, false⟩ depsFix expFix userFix filesUnconfFix
        = ⟨(configureUpdatesTry gFix ⟨false, false⟩ expFix userFix filesUnconfFix).files,
            (configureUpdatesTry gFix ⟨false, false⟩ expFix userFix filesUnconfFix).writes,
            if (GitEnv.mk false false).reviewOk then none
            else some UpdatesError.abortError⟩ :=
  ⟨by decide, by decide,
    C9_recovery_orchestration.2.1 gFix ⟨false, false⟩ depsFix expFix userFix
      filesUnconfFix (by decide) (by decide)⟩

end ExpoUpdates
